import Mathlib

/-!
Verification of the Stylometrics multi-channel text steganography codec.

The TypeScript sources are shallowly embedded here.  A JavaScript string is
modelled as a `List Nat` of UTF-16 code units (`Str`); all inputs we reason
about live in the basic multilingual plane, where a code unit is the scalar
value of the character.  Each definition is a direct translation of the
correspondingly named function of the repository; JS primitives
(`slice`, `substring`, `indexOf`, `split`, `trim`, regex scans, `parseInt`)
are modelled by the `js...` helpers defined first.  `Math.random()` is
modelled by an explicit stream of rationals threaded through the encoders.
-/

namespace Stylometrics

set_option maxRecDepth 100000

/-- Code units of a Lean string literal, used to write the JS string constants
of the source.  All constants are ASCII, so `Char.toNat` is the code unit. -/
def cu (s : String) : List Nat := s.toList.map Char.toNat

/-- A JavaScript string: its list of UTF-16 code units. -/
abbrev Str := List Nat

/-- U+200B zero-width space, the invisible channel's bit 0. -/
def ZWSP : Nat := 0x200B

/-- U+200C zero-width non-joiner, the invisible channel's bit 1. -/
def ZWNJ : Nat := 0x200C

/-- U+200D zero-width joiner, the invisible channel's marker character. -/
def ZWJ : Nat := 0x200D

/-- Model of `String.prototype.indexOf` for a pattern: the first index at
which `pat` begins, if any (JS returns -1, modelled as `none`). -/
def idxOf (s pat : Str) : Option Nat :=
  if pat.isPrefixOf s then some 0
  else
    match s with
    | [] => none
    | _ :: cs => (idxOf cs pat).map (· + 1)

/-- Model of `String.prototype.includes`. -/
def jsIncludes (s pat : Str) : Bool := (idxOf s pat).isSome

/-- Clamp a possibly negative JS index to an absolute position in a string of
length `len`, as `slice` does (negative counts from the end). -/
def jsIdx (len : Nat) (i : Int) : Nat :=
  if i < 0 then ((len : Int) + i).toNat else min i.toNat len

/-- Model of `s.slice(a)`. -/
def jsSlice1 (s : Str) (a : Int) : Str := s.drop (jsIdx s.length a)

/-- Model of `s.slice(a, b)`. -/
def jsSlice2 (s : Str) (a b : Int) : Str :=
  (s.drop (jsIdx s.length a)).take (jsIdx s.length b - jsIdx s.length a)

/-- Model of `s.substring(a, b)` for non-negative arguments: clamps both to
the string and swaps them when `a > b`. -/
def jsSubstring (s : Str) (a b : Nat) : Str :=
  (s.drop (min a b)).take (max a b - min a b)

/-- The JS whitespace class used by `trim` and `\s` (ASCII part, plus NBSP and
the BOM; the sources only ever meet the ASCII part). -/
def jsWhitespace (c : Nat) : Bool :=
  c = 32 || c = 9 || c = 10 || c = 11 || c = 12 || c = 13 || c = 0xA0 || c = 0xFEFF

/-- Model of `String.prototype.trim`.  Zero-width characters are not JS
whitespace and are not trimmed. -/
def jsTrim (s : Str) : Str :=
  ((s.dropWhile jsWhitespace).reverse.dropWhile jsWhitespace).reverse

/-- Fuel-driven worker for `splitOnStr`; with a nonempty separator every
recursive step consumes at least one character, so `s.length + 1` steps
suffice. -/
def splitOnStrGo (sep : Str) : Nat → Str → List Str
  | 0, s => [s]
  | fuel + 1, s =>
    match idxOf s sep with
    | none => [s]
    | some i => s.take i :: splitOnStrGo sep fuel (s.drop (i + sep.length))

/-- Model of `s.split(sep)` for a plain-string separator (leftmost-first
scan, empty pieces kept). -/
def splitOnStr (sep s : Str) : List Str := splitOnStrGo sep (s.length + 1) s

/-- Fuel-driven worker for `toBinDigits` (any fuel above the number
works). -/
def toBinGo : Nat → Nat → Str
  | 0, _ => []
  | fuel + 1, n => if n < 2 then [48 + n] else toBinGo fuel (n / 2) ++ [48 + n % 2]

/-- `toString(2)` of a natural number: its binary digits as the characters
`'0'`/`'1'` (code units 48/49). -/
def toBinDigits (n : Nat) : Str := toBinGo (n + 1) n

/-- Model of `padStart(k, c)`. -/
def padStartCU (k pad : Nat) (s : Str) : Str := List.replicate (k - s.length) pad ++ s

/-- Model of `parseInt(s, 2)`: the value of the maximal prefix of binary digit
characters, `none` when there is none (JS `NaN`). -/
def parseBinOpt (s : Str) : Option Nat :=
  match s.takeWhile (fun c => c = 48 || c = 49) with
  | [] => none
  | ds => some (ds.foldl (fun a c => 2 * a + (c - 48)) 0)

/-- `parseInt(s, 2)` where the argument is known to be a nonempty string of
binary digit characters (every reachable call site of the decoders). -/
def parseBin (s : Str) : Nat := (parseBinOpt s).getD 0

/-- Fuel-driven worker for `chunk8` (the string's length is enough fuel, as
every step consumes at least one character). -/
def chunk8Go : Nat → Str → List Str
  | 0, _ => []
  | fuel + 1, s => if s.isEmpty then [] else s.take 8 :: chunk8Go fuel (s.drop 8)

/-- The `i += 8` chunking of the decoders' byte loops: successive groups of
eight characters, the final group possibly shorter. -/
def chunk8 (s : Str) : List Str := chunk8Go s.length s

/-- Byte loop of `extractHiddenData`: every chunk, also a short final one, is
parsed and kept (`result += String.fromCharCode(parseInt(byte, 2))`). -/
def bytesKeep (s : Str) : Str := (chunk8 s).map parseBin

/-- Byte loop of the stylometric and structural decoders: only full 8-bit
chunks are kept (`if (byte.length === 8)`). -/
def bytesFull (s : Str) : Str :=
  (chunk8 s).filterMap (fun b => if b.length = 8 then some (parseBin b) else none)

/-- `charCodeAt(0).toString(2).padStart(8, '0')` of one payload character. -/
def charToBin (c : Nat) : Str := padStartCU 8 48 (toBinDigits c)

/-- The bit-0/bit-1 alphabet of the invisible channel
(`bit === '0' ? ZWSP : ZWNJ`). -/
def bitToZW (c : Nat) : Nat := if c = 48 then ZWSP else ZWNJ

/-- Reading the alphabet back (`char === ZWSP ? '0' : '1'`). -/
def zwToBit (c : Nat) : Nat := if c = ZWSP then 48 else 49

/-- The insertion offset of `hideDataInText`:
`Math.min(text.length - 1, Math.max(0, text.split(' ').length % 10 + 10))`. -/
def invPosition (text : Str) : Int :=
  min ((text.length : Int) - 1)
    (max 0 (((text.splitOn 32).length % 10 : Nat) + 10 : Nat))

/-- `hideDataInText` of `safety_embedded_word`: converts the payload to bits,
prefixes the 16-bit length, maps bits to the zero-width alphabet, frames the
block with three ZWJ on each side and splices it into the text at
`invPosition`. -/
def hideDataInText (text dataToHide : Str) : Str :=
  let binaryData := dataToHide.flatMap charToBin
  let preamble := List.replicate 3 ZWJ
  let lengthBinary := padStartCU 16 48 (toBinDigits binaryData.length)
  let encodedLength := lengthBinary.map bitToZW
  let encodedData := binaryData.map bitToZW
  let epilogue := List.replicate 3 ZWJ
  let position := invPosition text
  jsSlice2 text 0 position ++ preamble ++ encodedLength ++ encodedData ++ epilogue
    ++ jsSlice1 text position

/-- The part of `extractHiddenData` after both markers were located: read the
16-bit length, slice that many data characters (an absent length, JS `NaN`,
slices nothing) and regroup them into characters. -/
def invContentDecode (enc : Str) : Str :=
  let lengthBits := (jsSlice2 enc 0 16).map zwToBit
  match parseBinOpt lengthBits with
  | none => bytesKeep []
  | some dataLength => bytesKeep ((jsSlice2 enc 16 (16 + (dataLength : Int))).map zwToBit)

/-- `extractHiddenData` of `safety_embedded_word`: locate the ZWJ-triple start
marker, then the next ZWJ-triple after it, and decode the characters between
them; `none` when either marker is missing. -/
def extractHiddenData (text : Str) : Option Str :=
  let preamble := List.replicate 3 ZWJ
  match idxOf text preamble with
  | none => none
  | some preambleIndex =>
    match idxOf (text.drop (preambleIndex + 3)) preamble with
    | none => none
    | some j => some (invContentDecode ((text.drop (preambleIndex + 3)).take j))

/-! ## Sentence segmentation

The channels share the sentence regex `/[^.!?]+[.!?]+/g`: a maximal run of
non-terminator characters followed by a maximal run of terminators. -/

/-- A sentence terminator: `.`, `!` or `?`. -/
def isPunctCU (c : Nat) : Bool := c = 46 || c = 33 || c = 63

/-- One global pass of the sentence regex, with fuel (each emitted match is
nonempty, so `s.length` steps suffice). -/
def matchSentsGo (fuel : Nat) (s : Str) : List Str :=
  match fuel with
  | 0 => []
  | fuel' + 1 =>
    let s1 := s.dropWhile isPunctCU
    let a := s1.takeWhile (fun c => !isPunctCU c)
    let r1 := s1.dropWhile (fun c => !isPunctCU c)
    let b := r1.takeWhile isPunctCU
    if a.isEmpty || b.isEmpty then []
    else (a ++ b) :: matchSentsGo fuel' (r1.dropWhile isPunctCU)

/-- Model of `text.match(/[^.!?]+[.!?]+/g) || []`. -/
def matchSents (s : Str) : List Str := matchSentsGo s.length s

/-! ## Stylometric channel (`safety_stylometric_encoder`) -/

/-- `COMMON_WORDS.adverbs`. -/
def adverbsCU : List Str :=
  [cu "very", cu "quite", cu "rather", cu "somewhat", cu "extremely", cu "fairly",
   cu "pretty", cu "really"]

/-- The marker phrase checked by the stylometric decoder. -/
def styMarkerCU : Str := cu "Please note the following information carefully."

/-- The marker text prepended by the stylometric encoder (trailing space). -/
def styMarkerTextCU : Str := cu "Please note the following information carefully. "

/-- The per-sentence bit classification of `extractStylometricBits`: 1 when
the (trimmed) sentence ends in `!`/`?` or contains a recognized adverb with a
space on each side, else 0 (as digit characters 49/48). -/
def styBitOf (t : Str) : Nat :=
  if (t.getLast? = some 33 || t.getLast? = some 63)
      || adverbsCU.any (fun adv => jsIncludes t (32 :: (adv ++ [32]))) then 49 else 48

/-- The skip rule shared by the stylometric encoder and decoder: a sentence
whose `split(' ')` has fewer than 3 fields neither carries nor consumes a
bit. -/
def styShort (t : Str) : Bool := (t.splitOn 32).length < 3

/-- The decoder's stopping rule, checked after each appended bit: at least
16 bits read and at least `16 + L` bits where `L` is the value of the first
16. -/
def styBreak (acc : List Nat) : Bool :=
  16 ≤ acc.length && 16 + parseBin (acc.take 16) ≤ acc.length

/-- The sentence walk of `extractStylometricBits` (from `startIndex`
onwards): trim, skip short sentences, classify, stop via `styBreak`. -/
def styLoop : List Str → List Nat → List Nat
  | [], acc => acc
  | s :: rest, acc =>
    let t := jsTrim s
    if styShort t then styLoop rest acc
    else
      let acc' := acc ++ [styBitOf t]
      if styBreak acc' then acc' else styLoop rest acc'

/-- `extractStylometricBits`: `none` when the marker phrase is absent or
fewer than 16 bits could be read. -/
def extractStylometricBits (text : Str) : Option (List Nat) :=
  if jsIncludes text styMarkerCU then
    let bits := styLoop ((matchSents text).drop 2) []
    if bits.length < 16 then none else some bits
  else none

/-- `extractHiddenStylometricData`: read the bit string, check the 16-bit
length prefix against the available bits (`TruncatedData` modelled as
`none`), regroup the declared data bits into characters (partial final bytes
dropped). -/
def extractHiddenStylometricData (text : Str) : Option Str :=
  match extractStylometricBits text with
  | none => none
  | some bits =>
    if bits.length < 16 then none
    else
      let dataLength := parseBin (jsSubstring bits 0 16)
      if bits.length < 16 + dataLength then none
      else some (bytesFull (jsSubstring bits 16 (16 + dataLength)))

/-- Error kinds of the encoders' `throw` statements. -/
inductive EncError where
  | insufficientSentences
  | tooFewParagraphs
  | contentTooShort
deriving DecidableEq, Repr

/-- The `Math.random()` oracle: a stream of rationals (each in `[0, 1)` for a
faithful run) together with the index of the next call. -/
structure Rng where
  stream : Nat → Rat
  k : Nat

/-- One `Math.random()` call. -/
def Rng.next (r : Rng) : Rat × Rng := (r.stream r.k, { r with k := r.k + 1 })

/-- Replace the first occurrence of `pat` (a plain string, as in
`String.prototype.replace` with a string or non-global regex argument). -/
def replaceFirst (s pat repl : Str) : Str :=
  match idxOf s pat with
  | none => s
  | some i => s.take i ++ repl ++ s.drop (i + pat.length)

/-- The adverb-removal pass of the encoder's bit-0 branch: for each adverb in
order one `Math.random()` call, and removal of the first ` adverb `
occurrence when the draw exceeds 0.7. -/
def removeAdvGo : List Str → Str → Rng → Str × Rng
  | [], m, r => (m, r)
  | adv :: rest, m, r =>
    let (q, r1) := r.next
    let pat := 32 :: (adv ++ [32])
    let m1 := if (7 : Rat) / 10 < q ∧ jsIncludes m pat then replaceFirst m pat [32] else m
    removeAdvGo rest m1 r1

/-- Bit-0 sentence transformation: adverb removal, then a trailing `!`/`?`
becomes `.`. -/
def encodeBit0 (t : Str) (r : Rng) : Str × Rng :=
  let (m, r1) := removeAdvGo adverbsCU t r
  let m1 := if m.getLast? = some 33 || m.getLast? = some 63
    then jsSlice2 m 0 (-1) ++ [46] else m
  (m1, r1)

/-- The trailing-punctuation step of the bit-1 branch: a trailing `.` becomes
`!` or `?` by one draw. -/
def punctBit1 (m : Str) (r : Rng) : Str × Rng :=
  if m.getLast? = some 46 then
    let (q, r1) := r.next
    (jsSlice2 m 0 (-1) ++ [if (1 : Rat) / 2 < q then 33 else 63], r1)
  else (m, r)

/-- Bit-1 sentence transformation: possibly splice in a random adverb (one
draw for the decision and, if taken, one for the position and one for the
adverb), then `punctBit1`. -/
def encodeBit1 (t : Str) (r : Rng) : Str × Rng :=
  let (q1, r1) := r.next
  if (7 : Rat) / 10 < q1 then
    let ws := t.splitOn 32
    let (q2, r2) := r1.next
    let pos := (Rat.floor (q2 * ((ws.length : Rat) - 1))).toNat + 1
    let (q3, r3) := r2.next
    let adv := adverbsCU.getD (Rat.floor (q3 * 8)).toNat []
    let m := List.intercalate [32] (ws.take pos ++ [adv] ++ ws.drop pos)
    punctBit1 m r3
  else punctBit1 t r1

/-- The encoder's sentence loop: runs while sentences and bits remain;
trimmed short sentences are copied (plus a space) without consuming a bit,
others are transformed by the current bit.  Returns the accumulated text,
the final `bitIndex` and the random state. -/
def encodeStyGo : List Str → List Nat → Nat → Str → Rng → Str × Nat × Rng
  | [], _, bitIndex, acc, r => (acc, bitIndex, r)
  | s :: rest, bits, bitIndex, acc, r =>
    if bits.length ≤ bitIndex then (acc, bitIndex, r)
    else
      let t := jsTrim s
      if styShort t then encodeStyGo rest bits bitIndex (acc ++ t ++ [32]) r
      else
        let (m, r1) := if bits.getD bitIndex 48 = 48 then encodeBit0 t r else encodeBit1 t r
        encodeStyGo rest bits (bitIndex + 1) (acc ++ m ++ [32]) r1

/-- `encodeStylometricBits`: throws when the text has fewer sentences than
bits; otherwise runs the sentence loop and then appends the raw sentences
from index `bitIndex` on (each plus a space), trimming the result. -/
def encodeStylometricBits (text : Str) (bits : List Nat) (r : Rng) :
    Except EncError (Str × Rng) :=
  let sentences := matchSents text
  if sentences.length < bits.length then .error .insufficientSentences
  else
    let (acc, bitIndex, r1) := encodeStyGo sentences bits 0 [] r
    .ok (jsTrim (acc ++ (sentences.drop bitIndex).flatMap (fun s => s ++ [32])), r1)

/-- `hideDataStylometrically`: length-prefixed payload bits, a marker text
prepended, the first nonempty middle paragraph encoded, the paragraphs from
index 2 on appended separated by blank lines. -/
def hideDataStylometrically (text dataToEncode : Str) (r : Rng) :
    Except EncError (Str × Rng) :=
  let binaryData := dataToEncode.flatMap charToBin
  let lengthBinary := padStartCU 16 48 (toBinDigits binaryData.length)
  let bitsToEncode := lengthBinary ++ binaryData
  let paragraphs := splitOnStr (cu "\n\n") text
  if paragraphs.length < 2 then .error .tooFewParagraphs
  else
    let first := paragraphs.getD 0 []
    let acc0 := if 0 < (jsTrim first).length
      then styMarkerTextCU ++ first ++ cu "\n\n"
      else styMarkerTextCU ++ cu "\n\n"
    let tail2 := List.intercalate (cu "\n\n") (paragraphs.drop 2)
    match ((paragraphs.drop 1).take (paragraphs.length - 2)).find?
        (fun p => !(jsTrim p).isEmpty) with
    | none => .ok (acc0 ++ tail2, r)
    | some p =>
      match encodeStylometricBits p bitsToEncode r with
      | .error e => .error e
      | .ok (enc, r1) => .ok (acc0 ++ enc ++ cu "\n\n" ++ tail2, r1)

/-! ## Structural channel (`safety_structural_encoder`)

The analyzer counts indicator words with global, case-insensitive
word-boundary regexes.  An alternative is a literal word (possibly with an
interior space, as in `going to`), or the `\w+ed` form of the past-tense
regex; a match must start and end at a word boundary, and the scan advances
past each match. -/

/-- A `\w` character: ASCII letter, digit or underscore. -/
def isWordCU (c : Nat) : Bool :=
  (48 ≤ c && c ≤ 57) || (65 ≤ c && c ≤ 90) || (97 ≤ c && c ≤ 122) || c = 95

/-- ASCII lower-casing of one code unit (the `/i` flag; all alternatives are
ASCII). -/
def lowerCU (c : Nat) : Nat := if 65 ≤ c && c ≤ 90 then c + 32 else c

/-- ASCII lower-casing of a string. -/
def lowerStr (s : Str) : Str := s.map lowerCU

/-- One alternative of an indicator regex. -/
inductive WAlt where
  | lit : Str → WAlt
  | edWord : WAlt
deriving DecidableEq

/-- Match length of one alternative at the head of `s` (the position's
leading word boundary is the caller's concern); checks the trailing word
boundary. -/
def altMatchLen (s : Str) : WAlt → Option Nat
  | .lit w =>
    if w.length ≤ s.length ∧ lowerStr (s.take w.length) = w
        ∧ (s.drop w.length = [] ∨ (s.getD w.length 0 |> isWordCU) = false)
    then some w.length else none
  | .edWord =>
    let run := s.takeWhile isWordCU
    if 3 ≤ run.length ∧ [101, 100].isSuffixOf (lowerStr run) then some run.length else none

/-- First alternative that matches, in the regex's order. -/
def firstAltLen (s : Str) : List WAlt → Option Nat
  | [] => none
  | a :: rest =>
    match altMatchLen s a with
    | some n => some n
    | none => firstAltLen s rest

/-- Fuel-driven scan of `text.match(/\b(alts)\b/gi)`, counting matches:
at each position with a leading word boundary try the alternatives, advance
past a match (every alternative ends in a word character, so the following
position's previous character is one). -/
def countAltsGo (alts : List WAlt) : Nat → Bool → Str → Nat
  | 0, _, _ => 0
  | fuel + 1, prevW, s =>
    match s with
    | [] => 0
    | c :: cs =>
      if !prevW then
        match firstAltLen s alts with
        | some n => 1 + countAltsGo alts fuel true (s.drop n)
        | none => countAltsGo alts fuel (isWordCU c) cs
      else countAltsGo alts fuel (isWordCU c) cs

/-- Number of matches of `/\b(alts)\b/gi` in `s`. -/
def countAlts (alts : List WAlt) (s : Str) : Nat := countAltsGo alts (s.length + 1) false s

/-- Existence of a match (`text.match(/.../i)` used as a boolean). -/
def hasAlt (alts : List WAlt) (s : Str) : Bool := 0 < countAlts alts s

/-- `/\b(I|me|my|mine|myself)\b/gi`. -/
def firstPersonAlts : List WAlt :=
  [.lit (cu "i"), .lit (cu "me"), .lit (cu "my"), .lit (cu "mine"), .lit (cu "myself")]

/-- `/\b(you|your|yours|yourself)\b/gi`. -/
def secondPersonAlts : List WAlt :=
  [.lit (cu "you"), .lit (cu "your"), .lit (cu "yours"), .lit (cu "yourself")]

/-- `/\b(he|she|it|they|him|her|them|his|hers|their|theirs)\b/gi`. -/
def thirdPersonAlts : List WAlt :=
  [.lit (cu "he"), .lit (cu "she"), .lit (cu "it"), .lit (cu "they"), .lit (cu "him"),
   .lit (cu "her"), .lit (cu "them"), .lit (cu "his"), .lit (cu "hers"),
   .lit (cu "their"), .lit (cu "theirs")]

/-- `/\b(\w+ed|was|were|had)\b/gi`. -/
def pastTenseAlts : List WAlt :=
  [.edWord, .lit (cu "was"), .lit (cu "were"), .lit (cu "had")]

/-- `/\b(is|are|am|being)\b/gi`. -/
def presentTenseAlts : List WAlt :=
  [.lit (cu "is"), .lit (cu "are"), .lit (cu "am"), .lit (cu "being")]

/-- `/\b(will|shall|going to)\b/gi`. -/
def futureTenseAlts : List WAlt :=
  [.lit (cu "will"), .lit (cu "shall"), .lit (cu "going to")]

/-- `/\b(like|as if|as though|resembles|similar to)\b/gi`. -/
def metaphorAlts : List WAlt :=
  [.lit (cu "like"), .lit (cu "as if"), .lit (cu "as though"), .lit (cu "resembles"),
   .lit (cu "similar to")]

/-- `/\b(certainly|definitely|absolutely|crucial|essential|critical)\b/i`. -/
def emphasisAlts : List WAlt :=
  [.lit (cu "certainly"), .lit (cu "definitely"), .lit (cu "absolutely"),
   .lit (cu "crucial"), .lit (cu "essential"), .lit (cu "critical")]

/-- `/\b(because|therefore|thus|hence|so|consequently)\b/gi`. -/
def argumentativeAlts : List WAlt :=
  [.lit (cu "because"), .lit (cu "therefore"), .lit (cu "thus"), .lit (cu "hence"),
   .lit (cu "so"), .lit (cu "consequently")]

/-- `/\b(appears|looks|seems|features|contains|consists)\b/gi`. -/
def descriptiveAlts : List WAlt :=
  [.lit (cu "appears"), .lit (cu "looks"), .lit (cu "seems"), .lit (cu "features"),
   .lit (cu "contains"), .lit (cu "consists")]

/-- `/\b(then|next|after|before|finally|eventually)\b/gi`. -/
def narrativeAlts : List WAlt :=
  [.lit (cu "then"), .lit (cu "next"), .lit (cu "after"), .lit (cu "before"),
   .lit (cu "finally"), .lit (cu "eventually")]

/-- The `pov` field of `ContentUnitAnalysis`. -/
inductive Pov where
  | first | second | third | mixed
deriving DecidableEq, Repr

/-- The `tense` field of `ContentUnitAnalysis`. -/
inductive Tense where
  | past | present | future | mixed
deriving DecidableEq, Repr

/-- The `dialectic` field of `ContentUnitAnalysis`. -/
inductive Dialectic where
  | argumentative | descriptive | narrative | mixed
deriving DecidableEq, Repr

/-- `ContentUnitAnalysis`.  The `rhetorical` list holds the numeric values of
the `RhetoricalPattern` enum entries the analyzer pushes (EndingQuestion and
Metaphorical are 0, EndingEmphasis and Direct are 1).  `complexity` is exact
rational arithmetic where JS uses floats; the sources only compare it with
12 on a branch shown below to be unreachable. -/
structure ContentUnitAnalysis where
  wordCount : Nat
  sentenceCount : Nat
  averageSentenceLength : Rat
  complexity : Rat
  pov : Pov
  tense : Tense
  rhetorical : List Nat
  dialectic : Dialectic
deriving DecidableEq, Repr

/-- The dominant-point-of-view rule of `analyzeContentUnit`: mixed unless the
maximum count is positive and at least double the sum of the other two, the
dominant class resolved in the order first, second, third. -/
def povOf (c0 c1 c2 : Nat) : Pov :=
  let m := max c0 (max c1 c2)
  if 0 < m ∧ 2 * (c0 + c1 + c2 - m) ≤ m then
    if c0 = m then .first else if c1 = m then .second else .third
  else .mixed

/-- The dominant-tense rule (same shape as `povOf`). -/
def tenseOf (c0 c1 c2 : Nat) : Tense :=
  let m := max c0 (max c1 c2)
  if 0 < m ∧ 2 * (c0 + c1 + c2 - m) ≤ m then
    if c0 = m then .past else if c1 = m then .present else .future
  else .mixed

/-- The dominant-dialectic rule: mixed unless the maximum count is positive
and MORE THAN HALF of the total (`maxDialecticCount > sum / 2`, an exact
float comparison, equivalently `sum < 2 * max` over naturals). -/
def dialecticOf (c0 c1 c2 : Nat) : Dialectic :=
  let m := max c0 (max c1 c2)
  if 0 < m ∧ c0 + c1 + c2 < 2 * m then
    if c0 = m then .argumentative else if c1 = m then .descriptive else .narrative
  else .mixed

/-- The words of a unit: `text.split(/\s+/).filter(w => w.length > 0)`, the
maximal runs of non-whitespace characters. -/
def wsWords (s : Str) : List Str :=
  (s.splitOnP (fun c => jsWhitespace c)).filter (fun w => !w.isEmpty)

/-- The `rhetorical` list construction: EndingQuestion (0) when the trimmed
last sentence ends in `?`; else EndingEmphasis (1) when it ends in `!` or the
raw last sentence contains an emphasis word; then always Metaphorical (0) or
Direct (1) by the metaphor indicators. -/
def rhetoricalOf (sents : List Str) (text : Str) : List Nat :=
  let lastS := sents.getLastD []
  let head :=
    if sents.length > 0 ∧ (jsTrim lastS).getLast? = some 63 then [0]
    else if sents.length > 0 ∧ ((jsTrim lastS).getLast? = some 33 ∨ hasAlt emphasisAlts lastS)
    then [1] else []
  head ++ (if hasAlt metaphorAlts text then [0] else [1])

/-- `analyzeContentUnit`.  The complexity is
`(words / sentences) * (uniqueWords / words) * 10` (0-guarded on sentences;
with no words JS yields NaN where this model yields 0 — no reachable
comparison distinguishes them). -/
def analyzeContentUnit (text : Str) : ContentUnitAnalysis :=
  let sents := matchSents text
  let words := wsWords text
  let c0 := countAlts firstPersonAlts text
  let c1 := countAlts secondPersonAlts text
  let c2 := countAlts thirdPersonAlts text
  let t0 := countAlts pastTenseAlts text
  let t1 := countAlts presentTenseAlts text
  let t2 := countAlts futureTenseAlts text
  let d0 := countAlts argumentativeAlts text
  let d1 := countAlts descriptiveAlts text
  let d2 := countAlts narrativeAlts text
  let uniq := (words.map lowerStr).dedup.length
  let avg : Rat := if 0 < sents.length then (words.length : Rat) / (sents.length : Rat) else 0
  let lexicalDiversity : Rat := (uniq : Rat) / (words.length : Rat)
  { wordCount := words.length
    sentenceCount := sents.length
    averageSentenceLength := avg
    complexity := avg * lexicalDiversity * 10
    pov := povOf c0 c1 c2
    tense := tenseOf t0 t1 t2
    rhetorical := rhetoricalOf sents text
    dialectic := dialecticOf d0 d1 d2 }

/-! ### Content segmentation (`splitContentIntoUnits`) -/

/-- The position, within a maximal whitespace run, of its last newline. -/
def lastNlIdx (run : Str) : Option Nat :=
  match run.reverse.findIdx? (fun c => c = 10) with
  | none => none
  | some j => some (run.length - 1 - j)

/-- First match of `/\n\s*\n/` from the scan position: at each newline, the
greedy `\s*` backtracks to the last newline of the following whitespace run;
returns (start index, match length). -/
def findParaSepGo : Nat → Str → Option (Nat × Nat)
  | _, [] => none
  | i, c :: cs =>
    if c = 10 then
      match lastNlIdx (cs.takeWhile jsWhitespace) with
      | some k => some (i, k + 2)
      | none => findParaSepGo (i + 1) cs
    else findParaSepGo (i + 1) cs

/-- Fuel-driven worker of the `/\n\s*\n/` split (every separator is at least
two characters long). -/
def paraSplitGo : Nat → Str → List Str
  | 0, s => [s]
  | fuel + 1, s =>
    match findParaSepGo 0 s with
    | none => [s]
    | some (i, n) => s.take i :: paraSplitGo fuel (s.drop (i + n))

/-- `content.split(/\n\s*\n/)`. -/
def paraSplit (s : Str) : List Str := paraSplitGo (s.length + 1) s

/-- The sentence-grouping fallback: accumulate sentences, emitting a unit
after the third sentence or past 200 characters; a leftover becomes a final
unit. -/
def groupSentsGo : List Str → Str → Nat → List Str
  | [], cur, _ => if 0 < cur.length then [cur] else []
  | s :: rest, cur, cnt =>
    let cur1 := cur ++ s
    if 3 ≤ cnt + 1 ∨ 200 < cur1.length then cur1 :: groupSentsGo rest [] 0
    else groupSentsGo rest cur1 (cnt + 1)

/-- `splitContentIntoUnits`: paragraphs by blank-line regex, nonblank ones
kept; below 5 paragraphs, sentence groups instead. -/
def splitContentIntoUnits (content : Str) : List Str :=
  let paragraphs := (paraSplit content).filter (fun p => !(jsTrim p).isEmpty)
  if paragraphs.length < 5 then groupSentsGo (matchSents content) [] 0
  else paragraphs

/-! ### Structural decoding (`extractHiddenStructuralData`) -/

/-- The structural channel's marker sentence as checked by the decoder. -/
def structMarkerCU : Str := cu "The following explores multiple perspectives."

/-- The `shortLongPattern` flag of the decoder's paragraph-pattern analysis:
true when unit lengths strictly alternate smaller/larger along the section
(`j` is the position parity). -/
def shortLongOk : Nat → List Nat → Bool
  | _, [] => true
  | _, [_] => true
  | j, a :: b :: rest =>
    (if j % 2 = 0 then decide (a < b) else decide (b < a)) && shortLongOk (j + 1) (b :: rest)

/-- The `consistentLength` flag computed alongside (`|cur - next| > cur * 0.3`
falsifies it); the decoder computes it but never reads it. -/
def consistentOk : List Nat → Bool
  | [] => true
  | [_] => true
  | a :: b :: rest =>
    decide (10 * (max a b - min a b) ≤ 3 * a) && consistentOk (b :: rest)

/-- Fuel-driven worker for `patternLoop`. -/
def patternLoopGo : Nat → List Str → List Nat → List Nat
  | 0, _, acc => acc
  | fuel + 1, us, acc =>
    if us.isEmpty || decide (16 ≤ acc.length) then acc
    else
      let sec := us.take 4
      let acc1 := if 3 ≤ sec.length
        then acc ++ [if shortLongOk 0 (sec.map List.length) then 48 else 49]
        else acc
      patternLoopGo fuel (us.drop 4) acc1

/-- The decoder's first pass: one bit per group of four units (sections of at
least 3 units), while fewer than 16 bits are read. -/
def patternLoop (us : List Str) (acc : List Nat) : List Nat :=
  patternLoopGo (us.length + 1) us acc

/-- The per-unit extraction bit: point of view, else the rhetorical list
(which always holds a 0 or a 1 — the Metaphorical/Direct entry), else tense,
dialectic and the complexity threshold. -/
def unitBit (u : Str) : Nat :=
  let a := analyzeContentUnit u
  if a.pov = .first then 48
  else if a.pov = .third then 49
  else if a.rhetorical.contains 0 then 48
  else if a.rhetorical.contains 1 then 49
  else if a.tense = .past then 48
  else if a.tense = .future then 49
  else if a.dialectic = .narrative then 48
  else if a.dialectic = .argumentative then 49
  else if a.complexity < 12 then 48 else 49

/-- The decoder's second pass: one bit per unit from index 0, while fewer
than 64 bits are read. -/
def unitLoop : List Str → List Nat → List Nat
  | [], acc => acc
  | u :: rest, acc => if 64 ≤ acc.length then acc else unitLoop rest (acc ++ [unitBit u])

/-- The bit-string phase of the structural decoder, after the marker and the
unit-count gate: pattern bits, then unit bits, then the 16-bit length prefix
check and byte regrouping. -/
def structBitsPhase (units : List Str) : Option Str :=
  let bits := unitLoop units (patternLoop units [])
  if bits.length < 16 then none
  else
    let dataLength := parseBin (jsSubstring bits 0 16)
    if bits.length < 16 + dataLength then none
    else some (bytesFull (jsSubstring bits 16 (16 + dataLength)))

/-- `extractHiddenStructuralData`: marker check, the `< 4` unit-count gate,
then `structBitsPhase`. -/
def extractHiddenStructuralData (text : Str) : Option Str :=
  if jsIncludes text structMarkerCU then
    let units := splitContentIntoUnits text
    if units.length < 4 then none else structBitsPhase units
  else none

/-! ### Structural encoding (`hideDataStructurally`) -/

/-- `StructuralEncodingOptions.encodingStrength`. -/
inductive Strength where
  | subtle | moderate | aggressive
deriving DecidableEq, Repr

/-- `StructuralEncodingOptions`. -/
structure StructOpts where
  minContentLength : Nat
  maxEncodableBits : Nat
  preserveExistingStructure : Bool
  encodingStrength : Strength
deriving Repr

/-- `NARRATIVE_PATTERNS.firstPerson`. -/
def firstPersonPatterns : List Str :=
  [cu "I remember when", cu "As I considered", cu "In my experience",
   cu "Looking back, I realized", cu "From my perspective"]

/-- `NARRATIVE_PATTERNS.thirdPerson`. -/
def thirdPersonPatterns : List Str :=
  [cu "They observed that", cu "From their viewpoint", cu "It became clear to them",
   cu "After consideration, she decided", cu "He recognized the pattern"]

/-- `transformPointOfView`: one draw picks a pattern; when the text lacks the
target person's markers, the pattern replaces the first sentence (spliced in
front of the text with that sentence deleted); otherwise the text is kept. -/
def transformPointOfView (text : Str) (bit : Nat) (r : Rng) : Str × Rng :=
  let (q, r1) := r.next
  if bit = 0 then
    let pattern := firstPersonPatterns.getD (Rat.floor (q * 5)).toNat []
    if !hasAlt firstPersonAlts text then
      match matchSents text with
      | [] => (text, r1)
      | s0 :: _ => (pattern ++ [32] ++ replaceFirst text s0 [], r1)
    else (text, r1)
  else
    let pattern := thirdPersonPatterns.getD (Rat.floor (q * 5)).toNat []
    if !hasAlt thirdPersonAlts text then
      match matchSents text with
      | [] => (text, r1)
      | s0 :: _ => (pattern ++ [32] ++ replaceFirst text s0 [], r1)
    else (text, r1)

/-- `/\b(had|was|were|previously|earlier|before|yesterday)\b/i`. -/
def pastCheckAlts : List WAlt :=
  [.lit (cu "had"), .lit (cu "was"), .lit (cu "were"), .lit (cu "previously"),
   .lit (cu "earlier"), .lit (cu "before"), .lit (cu "yesterday")]

/-- `/\b(will|shall|going to|soon|eventually|tomorrow)\b/i`. -/
def futureCheckAlts : List WAlt :=
  [.lit (cu "will"), .lit (cu "shall"), .lit (cu "going to"), .lit (cu "soon"),
   .lit (cu "eventually"), .lit (cu "tomorrow")]

/-- `transformTense`: inserts a tense indicator after the first `. ` when the
text lacks indicators of the target tense. -/
def transformTense (text : Str) (bit : Nat) : Str :=
  if bit = 0 then
    if !hasAlt pastCheckAlts text
    then replaceFirst text (cu ". ") (cu ". Previously, ") else text
  else
    if !hasAlt futureCheckAlts text
    then replaceFirst text (cu ". ") (cu ". Eventually, ") else text

/-- The verb alternatives of the question-forming regexes. -/
def questionVerbs : List Str :=
  [cu "is", cu "are", cu "was", cu "were", cu "will", cu "should", cu "could",
   cu "would", cu "can"]

/-- First match of `/\b((\w+)\s+(is|are|...))\b/i`: a word run, whitespace,
then a verb with a trailing boundary; returns (start, length, word, verb). -/
def findQMatchGo : Bool → Nat → Str → Option (Nat × Nat × Str × Str)
  | _, _, [] => none
  | prevW, i, s@(c :: cs) =>
    if !prevW && isWordCU c then
      let w := s.takeWhile isWordCU
      let afterW := s.dropWhile isWordCU
      let ws := afterW.takeWhile jsWhitespace
      let afterWs := afterW.dropWhile jsWhitespace
      let hit := questionVerbs.find? (fun v =>
        decide (v.length ≤ afterWs.length) && decide (lowerStr (afterWs.take v.length) = v)
          && ((afterWs.drop v.length).isEmpty || !(isWordCU (afterWs.getD v.length 0))))
      match hit, ws.isEmpty with
      | some v, false => some (i, w.length + ws.length + v.length, w, afterWs.take v.length)
      | _, _ => findQMatchGo (isWordCU c) (i + 1) cs
    else findQMatchGo (isWordCU c) (i + 1) cs

/-- `lastSentence.replace(/\b((\w+)\s+(verb))\b/i, (m, p1, p2, verb) =>
verb + " " + p2)`. -/
def questionForm (s : Str) : Str :=
  match findQMatchGo false 0 s with
  | none => s
  | some (i, n, w, v) => s.take i ++ v ++ [32] ++ w ++ s.drop (i + n)

/-- Replace a trailing run of characters of class `cls` by `repl` (the
`/[.!]+$/` and `/[.?]+$/` replaces). -/
def replaceTrailRun (s : Str) (cls : Nat → Bool) (repl : Str) : Str :=
  let run := s.reverse.takeWhile cls
  if run.isEmpty then s else s.take (s.length - run.length) ++ repl

/-- `transformRhetoricalStructure`: for bit 0 rewrite the last sentence into
a question (unless it already ends in `?`), for bit 1 into an emphatic
statement (unless it already ends in `!` or has an emphasis word).  The
`analysis` argument is accepted and unused, as in the source. -/
def transformRhetoricalStructure (text : Str) (bit : Nat)
    (analysis : ContentUnitAnalysis) : Str :=
  match matchSents text with
  | [] => text
  | sents =>
    let lastS := sents.getLastD []
    if bit = 0 then
      if (jsTrim lastS).getLast? = some 63 then text
      else
        let base := jsSubstring text 0 (text.length - lastS.length)
        if hasAlt (questionVerbs.map WAlt.lit) lastS then base ++ questionForm lastS
        else base ++ cu "Might we consider how "
          ++ replaceTrailRun (jsTrim lastS) (fun c => c = 46 || c = 33) [63]
    else
      if (jsTrim lastS).getLast? = some 33 ∨ hasAlt emphasisAlts lastS then text
      else
        let base := jsSubstring text 0 (text.length - lastS.length)
        base ++ replaceTrailRun (jsTrim lastS) (fun c => c = 46 || c = 63) [33]

/-- `transformContentStructure`: strategy by strength (aggressive: point of
view, rhetorical, tense; moderate: point of view past 150 characters, then
rhetorical; subtle: rhetorical only). -/
def transformContentStructure (u : Str) (bit : Nat) (opts : StructOpts) (r : Rng) :
    Str × Rng :=
  let analysis := analyzeContentUnit u
  match opts.encodingStrength with
  | .aggressive =>
    let (t1, r1) := transformPointOfView u bit r
    let t2 := transformRhetoricalStructure t1 bit analysis
    (transformTense t2 bit, r1)
  | .moderate =>
    if 150 < u.length then
      let (t1, r1) := transformPointOfView u bit r
      (transformRhetoricalStructure t1 bit analysis, r1)
    else (transformRhetoricalStructure u bit analysis, r)
  | .subtle => (transformRhetoricalStructure u bit analysis, r)

/-- `makeParagraphShorter`: beyond two sentences keep only the first and the
last. -/
def makeParagraphShorter (p : Str) : Str :=
  let sents := matchSents p
  if sents.length ≤ 2 then p
  else sents.getD 0 [] ++ [32] ++ sents.getLastD []

/-- The elaboration sentences of `makeParagraphLonger`. -/
def elaborations : List Str :=
  [cu "This illustrates the key principle at work. ",
   cu "The implications of this are significant. ",
   cu "Several factors contribute to this outcome. ",
   cu "This represents an important development. ",
   cu "Multiple perspectives can be applied to this situation. "]

/-- `lastIndexOf` of a pattern: the greatest index at which it begins. -/
def lastIdxOf (s pat : Str) : Option Nat :=
  (idxOf s.reverse pat.reverse).map (fun j => s.length - pat.length - j)

/-- `makeParagraphLonger`: one draw picks an elaboration, inserted before the
last sentence (after a space when there is only one sentence). -/
def makeParagraphLonger (p : Str) (r : Rng) : Str × Rng :=
  let sents := matchSents p
  if sents.isEmpty then (p, r)
  else
    let (q, r1) := r.next
    let e := elaborations.getD (Rat.floor (q * 5)).toNat []
    if 1 < sents.length then
      match lastIdxOf p (sents.getLastD []) with
      | some pos => (p.take pos ++ e ++ p.drop pos, r1)
      | none => (e ++ p, r1)
    else (p ++ [32] ++ e, r1)

/-- The elaboration sentences of `makeParagraphMedium`. -/
def mediumElaborations : List Str :=
  [cu "This represents an important consideration. ",
   cu "The pattern continues in subsequent examples. "]

/-- `makeParagraphMedium`: beyond three sentences keep the first three joined
by spaces; below two append a drawn elaboration. -/
def makeParagraphMedium (p : Str) (r : Rng) : Str × Rng :=
  let sents := matchSents p
  if sents.isEmpty then (p, r)
  else if 3 < sents.length then (List.intercalate [32] (sents.take 3), r)
  else if sents.length < 2 then
    let (q, r1) := r.next
    (p ++ [32] ++ mediumElaborations.getD (Rat.floor (q * 2)).toNat [], r1)
  else (p, r)

/-- The per-section bit-0 transformation: alternate shorter (even positions)
and longer (odd positions). -/
def altShortLong : List Str → Nat → Rng → List Str × Rng
  | [], _, r => ([], r)
  | p :: rest, j, r =>
    if j % 2 = 0 then
      let (ts, r1) := altShortLong rest (j + 1) r
      (makeParagraphShorter p :: ts, r1)
    else
      let (t, r1) := makeParagraphLonger p r
      let (ts, r2) := altShortLong rest (j + 1) r1
      (t :: ts, r2)

/-- The per-section bit-1 transformation: every unit made medium. -/
def mapMedium : List Str → Rng → List Str × Rng
  | [], r => ([], r)
  | p :: rest, r =>
    let (t, r1) := makeParagraphMedium p r
    let (ts, r2) := mapMedium rest r1
    (t :: ts, r2)

/-- The section loop of `transformParagraphPatterns`: sections of up to four
units; sections of at least three encode one bit by length patterns, smaller
ones pass unchanged without consuming a bit. -/
def tppGo (us : List Str) (bits : List Nat) (bitIndex : Nat) (acc : List Str) (r : Rng) :
    List Str × Rng :=
  if h : us = [] ∨ bits.length ≤ bitIndex then (acc, r)
  else
    let sec := us.take 4
    if 3 ≤ sec.length then
      if bits.getD bitIndex 48 = 48 then
        let (ts, r1) := altShortLong sec 0 r
        tppGo (us.drop 4) bits (bitIndex + 1) (acc ++ ts) r1
      else
        let (ts, r1) := mapMedium sec r
        tppGo (us.drop 4) bits (bitIndex + 1) (acc ++ ts) r1
    else tppGo (us.drop 4) bits bitIndex (acc ++ sec) r
termination_by us.length
decreasing_by
  all_goals
    simp only [List.length_drop]
    rcases us with - | ⟨a, l⟩
    · simp at h
    · simp only [List.length_cons]; omega

/-- `transformParagraphPatterns`: unchanged below four units, else the
section loop, with any units past the transformed prefix appended
unchanged. -/
def transformParagraphPatterns (us : List Str) (bits : List Nat) (r : Rng) :
    List Str × Rng :=
  if us.length < 4 then (us, r)
  else
    let (acc, r1) := tppGo us bits 0 [] r
    (if acc.length < us.length then acc ++ us.drop acc.length else acc, r1)

/-- The encoder's second pass: while `i + 16 < maxBits`, transform unit `i`
by bit `i + 16` when that bit exists. -/
def secondPass : List Str → List Nat → Nat → Nat → StructOpts → Rng → List Str × Rng
  | [], _, _, _, _, r => ([], r)
  | u :: rest, bits, maxBits, i, opts, r =>
    if i + 16 < maxBits then
      if i + 16 < bits.length then
        let (u1, r1) := transformContentStructure u (bits.getD (i + 16) 48 - 48) opts r
        let (us, r2) := secondPass rest bits maxBits (i + 1) opts r1
        (u1 :: us, r2)
      else
        let (us, r1) := secondPass rest bits maxBits (i + 1) opts r
        (u :: us, r1)
    else (u :: rest, r)

/-- The structural marker text prepended by the encoder (trailing space). -/
def structMarkerTextCU : Str := cu "The following explores multiple perspectives. "

/-- `hideDataStructurally`: the content-length gate (`ContentTooShort`),
length-prefixed bits capped by `maxEncodableBits`, the paragraph-pattern
pass on the first up-to-16 bits, the per-unit pass on the rest, and the
marker prepended to the blank-line-joined units. -/
def hideDataStructurally (text dataToHide : Str) (opts : StructOpts) (r : Rng) :
    Except EncError (Str × Rng) :=
  if text.length < opts.minContentLength then .error .contentTooShort
  else
    let binaryData := dataToHide.flatMap charToBin
    let lengthBinary := padStartCU 16 48 (toBinDigits binaryData.length)
    let bitsToEncode := lengthBinary ++ binaryData
    let maxBits := min opts.maxEncodableBits bitsToEncode.length
    let units0 := splitContentIntoUnits text
    let (units1, r1) := transformParagraphPatterns units0 (bitsToEncode.take (min maxBits 16)) r
    let (units2, r2) := secondPass units1 bitsToEncode maxBits 0 opts r1
    .ok (structMarkerTextCU ++ List.intercalate (cu "\n\n") units2, r2)

/-! ## Orchestrator (`safety_enhanced_integration`) -/

/-- The content-processing pipeline of `encodeEnhancedContent` with every
layer enabled and redundant encoding (the options used by the enhanced
demo): zero-width, then stylometric, then structural when the current text
has reached 800 characters; any layer's throw is caught and surfaced as
`none` (the orchestrator returns no package). -/
def encodeEnhancedCore (originalContent metadataStr : Str) (r : Rng) : Option Str :=
  let c1 := hideDataInText originalContent metadataStr
  match hideDataStylometrically c1 metadataStr r with
  | .error _ => none
  | .ok (c2, r2) =>
    if 800 ≤ c2.length then
      match hideDataStructurally c2 metadataStr ⟨800, 64, true, .moderate⟩ r2 with
      | .error _ => none
      | .ok (c3, _) => some c3
    else some c2

/-- A parsed JSON value (`JSON.parse` of an extracted payload); numbers are
modelled as integers, which covers every value the sources construct. -/
inductive Json where
  | null
  | bool (b : Bool)
  | num (n : Int)
  | str (s : Str)
  | arr (xs : List Json)
  | obj (fields : List (Str × Json))

/-- JSON string quoting with the two escapes that keep `JSON.stringify`
injective on the values at hand. -/
def quoteStr (s : Str) : Str :=
  [34] ++ s.flatMap (fun c => if c = 34 || c = 92 then [92, c] else [c]) ++ [34]

/-- Comma-join of serialized items. -/
def joinComma (xs : List Str) : Str := List.intercalate [44] xs

mutual

/-- `JSON.stringify` of a parsed value (insertion-ordered object fields, no
spaces, as in V8). -/
def stringify : Json → Str
  | .null => cu "null"
  | .bool true => cu "true"
  | .bool false => cu "false"
  | .num n => cu (toString n)
  | .str s => quoteStr s
  | .arr xs => [91] ++ joinComma (stringifyItems xs) ++ [93]
  | .obj fs => [123] ++ joinComma (stringifyFields fs) ++ [125]

/-- Serialize the items of an array. -/
def stringifyItems : List Json → List Str
  | [] => []
  | x :: xs => stringify x :: stringifyItems xs

/-- Serialize the fields of an object. -/
def stringifyFields : List (Str × Json) → List Str
  | [] => []
  | (k, v) :: fs => (quoteStr k ++ [58] ++ stringify v) :: stringifyFields fs

end

/-- JS property access `value.key` on a parsed value (`none` is
`undefined`). -/
def getField (j : Json) (key : Str) : Option Json :=
  match j with
  | .obj fs => (fs.find? (fun f => f.1 == key)).map (fun f => f.2)
  | _ => none

/-- JS truthiness of a property access result. -/
def truthy : Option Json → Bool
  | none => false
  | some .null => false
  | some (.bool b) => b
  | some (.num n) => !(n == 0)
  | some (.str s) => !s.isEmpty
  | some (.arr _) => true
  | some (.obj _) => true

/-- JS `===` on parsed values from two distinct `JSON.parse` calls:
primitive values compare by value, objects and arrays are distinct
references and never equal. -/
def primEq : Json → Json → Bool
  | .null, .null => true
  | .bool a, .bool b => a == b
  | .num a, .num b => a == b
  | .str a, .str b => a == b
  | _, _ => false

/-- JS `!==` on two property access results (from distinct parses). -/
def strictNeq : Option Json → Option Json → Bool
  | none, none => false
  | some a, some b => !primEq a b
  | _, _ => true

/-- One iteration of the cross-layer integrity loop of
`decodeEnhancedContent`: a result with a truthy `subset` field falsifies the
flag when the primary has a truthy `id` differing from its own; any other
result falsifies it when its re-serialization differs from the primary's. -/
def integrityStep (primary : Json) (flag : Bool) (cur : Json) : Bool :=
  if truthy (getField cur (cu "subset")) then
    if truthy (getField primary (cu "id"))
        && strictNeq (getField cur (cu "id")) (getField primary (cu "id"))
    then false else flag
  else
    if !(stringify cur == stringify primary) then false else flag

/-- The integrity flag computed over the non-primary extraction results. -/
def crossLayerIntegrity (primary : Json) (rest : List Json) : Bool :=
  rest.foldl (integrityStep primary) true

/-- The `integrity` field returned by `decodeEnhancedContent`, as a function
of the successfully parsed extraction results in channel priority order:
`false` when no extraction succeeded, else the loop over the tail. -/
def decodeIntegrity (results : List Json) : Bool :=
  match results with
  | [] => false
  | p :: rest => crossLayerIntegrity p rest

/-- The flag-free form of one loop iteration's agreement test. -/
def codeAgrees (primary cur : Json) : Bool :=
  if truthy (getField cur (cu "subset")) then
    !(truthy (getField primary (cu "id"))
      && strictNeq (getField cur (cu "id")) (getField primary (cu "id")))
  else stringify cur == stringify primary

/-- Modelled from the spec: agreement of a non-primary extraction with the
primary as claim C4 words it — byte-identical data (equal re-serialization)
for a full payload, an equal shared identifier field for a partitioned
(`subset`-marked) payload. -/
def specAgrees (primary cur : Json) : Bool :=
  if (getField cur (cu "subset")).isSome then
    match getField primary (cu "id"), getField cur (cu "id") with
    | some a, some b => primEq a b
    | _, _ => false
  else stringify cur == stringify primary

/-- Modelled from the spec: claim C4's integrity value — at least one result,
and every further result agrees with the primary. -/
def specIntegrity (results : List Json) : Bool :=
  match results with
  | [] => false
  | p :: rest => rest.all (specAgrees p)

/-! ## Spec-side definitions for the structural extraction bit (claim C6) -/

/-- The analyzer's ending-question condition on a unit. -/
def endingQuestion (u : Str) : Bool :=
  let sents := matchSents u
  decide (0 < sents.length) && ((jsTrim (sents.getLastD [])).getLast? == some 63)

/-- The analyzer's ending-emphasis condition on a unit. -/
def endingEmphasis (u : Str) : Bool :=
  let sents := matchSents u
  decide (0 < sents.length) && !endingQuestion u
    && (((jsTrim (sents.getLastD [])).getLast? == some 33)
        || hasAlt emphasisAlts (sents.getLastD []))

/-- Modelled from the spec: claim C6's per-unit extraction bit — point of
view, else rhetorical closing, else tense, else dialectic, else the
complexity threshold. -/
def specUnitBit (u : Str) : Nat :=
  let a := analyzeContentUnit u
  if a.pov = .first then 48
  else if a.pov = .third then 49
  else if endingQuestion u then 48
  else if endingEmphasis u then 49
  else if a.tense = .past then 48
  else if a.tense = .future then 49
  else if a.dialectic = .narrative then 48
  else if a.dialectic = .argumentative then 49
  else if a.complexity < 12 then 48 else 49

/-- The decision table the code actually implements for the per-unit bit
(derived in the amended claim C6): point of view, else 0 exactly when the
unit ends in a question or shows metaphorical language, else 1. -/
def amendedUnitBit (u : Str) : Nat :=
  let a := analyzeContentUnit u
  if a.pov = .first then 48
  else if a.pov = .third then 49
  else if endingQuestion u || hasAlt metaphorAlts u then 48
  else 49

/-- Deleting every invisible-channel character (U+200B, U+200C, U+200D), the
transformation simulated by the enhanced demo's stripping step. -/
def stripZW (s : Str) : Str := s.filter (fun c => !(c = ZWSP || c = ZWNJ || c = ZWJ))

/-- A concrete `Math.random()` history: every draw returns 0 (all optional
stylistic mutations declined). -/
def zeroRng : Rng := ⟨fun _ => 0, 0⟩

/-! ## Helper lemmas -/

theorem integrityStep_eq_and (p : Json) (flag : Bool) (cur : Json) :
    integrityStep p flag cur = (flag && codeAgrees p cur) := by
  unfold integrityStep codeAgrees
  cases h1 : truthy (getField cur (cu "subset"))
  · simp only [Bool.false_eq_true, if_false]
    cases h2 : stringify cur == stringify p <;> cases flag <;> simp
  · simp only [if_true]
    cases h2 : truthy (getField p (cu "id"))
        && strictNeq (getField cur (cu "id")) (getField p (cu "id")) <;>
      cases flag <;> simp_all

theorem foldl_integrityStep (p : Json) (rest : List Json) :
    ∀ b : Bool, rest.foldl (integrityStep p) b = (b && rest.all (codeAgrees p)) := by
  induction rest with
  | nil => intro b; simp
  | cons c cs ih =>
    intro b
    simp only [List.foldl_cons, integrityStep_eq_and, ih, List.all_cons]
    cases b <;> cases h : codeAgrees p c <;> simp

theorem crossLayerIntegrity_eq_all (p : Json) (rest : List Json) :
    crossLayerIntegrity p rest = rest.all (codeAgrees p) := by
  unfold crossLayerIntegrity
  rw [foldl_integrityStep]
  simp

/-! ## Claim C4 -/

/-- The primary extraction result of the C4 counterexample: a parsed payload
without an `id` field. -/
def c4primary : Json := .obj [(cu "a", .num 1)]

/-- A later extraction result of the C4 counterexample: a partitioned-mode
payload whose `id` differs from the primary's (the primary has none). -/
def c4secondary : Json := .obj [(cu "subset", .str (cu "s")), (cu "id", .str (cu "y"))]

/-- Claim C4 counterexample: with a primary result lacking an `id` field and a
later `subset`-marked result carrying one, the orchestrator's loop returns
integrity `true` although the two extractions share no equal identifier
field, so the claimed "if and only if" fails at this input. -/
theorem claim4_counterexample :
    decodeIntegrity [c4primary, c4secondary] = true
      ∧ specIntegrity [c4primary, c4secondary] = false := by
  constructor <;> decide

/-- Claim C4 (amended): the orchestrator's decode returns integrity = true iff
at least one channel's extraction succeeded and every further successful
extraction agrees with the primary one, where a `subset`-marked (partitioned)
result agrees unless the primary has a truthy `id` field strictly different
from its own, and any other result agrees exactly when its re-serialization
equals the primary's. -/
theorem claim4_theorem (results : List Json) :
    decodeIntegrity results = true ↔
      results ≠ [] ∧ ∀ cur ∈ results.tail, codeAgrees (results.headD .null) cur := by
  cases results with
  | nil => simp [decodeIntegrity]
  | cons p rest =>
    simp [decodeIntegrity, crossLayerIntegrity_eq_all, List.all_eq_true]

/-! ## Claim C6 -/

/-- The C6 counterexample unit: mixed point of view (`we` is not a
first-person indicator), no ending question and no ending emphasis, past
tense. -/
def c6unit : Str := cu "We walked home."

/-- Claim C6 counterexample: a unit with mixed point of view, no rhetorical
closing and past tense must yield bit 0 by the claimed precedence table
(tense: past → 0), but the decoder extracts 1: the analyzer always appends a
Metaphorical (0) or Direct (1) entry to the same `rhetorical` list the
closing test reads, so `includes(1)` fires before tense is ever consulted. -/
theorem claim6_counterexample :
    (analyzeContentUnit c6unit).pov = .mixed
      ∧ endingQuestion c6unit = false
      ∧ endingEmphasis c6unit = false
      ∧ (analyzeContentUnit c6unit).tense = .past
      ∧ specUnitBit c6unit = 48
      ∧ unitBit c6unit = 49 := by
  decide

theorem contains_rhetoricalOf_zero (sents : List Str) (text : Str) :
    (rhetoricalOf sents text).contains 0 = true ↔
      ((0 < sents.length ∧ (jsTrim (sents.getLastD [])).getLast? = some 63)
        ∨ hasAlt metaphorAlts text = true) := by
  unfold rhetoricalOf
  dsimp only
  by_cases hQ : 0 < sents.length ∧ (jsTrim (sents.getLastD [])).getLast? = some 63
  · rw [if_pos hQ]
    by_cases hM : hasAlt metaphorAlts text = true
    · rw [if_pos hM]; simp_all [List.getLastD_eq_getLast?]
    · rw [if_neg hM]; simp_all [List.getLastD_eq_getLast?]
  · rw [if_neg hQ]
    by_cases hE : 0 < sents.length
        ∧ ((jsTrim (sents.getLastD [])).getLast? = some 33
            ∨ hasAlt emphasisAlts (sents.getLastD []) = true)
    · rw [if_pos hE]
      by_cases hM : hasAlt metaphorAlts text = true
      · rw [if_pos hM]; simp_all [List.getLastD_eq_getLast?]
      · rw [if_neg hM]; simp_all [List.getLastD_eq_getLast?]
    · rw [if_neg hE]
      by_cases hM : hasAlt metaphorAlts text = true
      · rw [if_pos hM]; simp_all [List.getLastD_eq_getLast?]
      · rw [if_neg hM]; simp_all [List.getLastD_eq_getLast?]

theorem contains_rhetoricalOf_one (sents : List Str) (text : Str)
    (h : ¬ (rhetoricalOf sents text).contains 0 = true) :
    (rhetoricalOf sents text).contains 1 = true := by
  have hM : ¬ hasAlt metaphorAlts text = true :=
    fun hx => h ((contains_rhetoricalOf_zero sents text).mpr (Or.inr hx))
  unfold rhetoricalOf
  unfold rhetoricalOf at h
  dsimp only
  dsimp only at h
  rw [if_neg hM] at h ⊢
  by_cases hQ : 0 < sents.length ∧ (jsTrim (sents.getLastD [])).getLast? = some 63
  · rw [if_pos hQ] at h; simp at h
  · rw [if_neg hQ] at h ⊢
    by_cases hE : 0 < sents.length
        ∧ ((jsTrim (sents.getLastD [])).getLast? = some 33
            ∨ hasAlt emphasisAlts (sents.getLastD []) = true)
    · rw [if_pos hE]; simp
    · rw [if_neg hE]; simp

/-- Claim C6 (amended): past the point-of-view steps (first → 0, third → 1),
the extracted bit is 0 exactly when the unit ends in a question or contains
metaphorical language, and 1 otherwise; the tense, dialectic and complexity
fallbacks of the claimed table are unreachable, because the rhetorical list
always holds a Metaphorical (0) or Direct (1) entry. -/
theorem claim6_theorem (u : Str) : unitBit u = amendedUnitBit u := by
  unfold unitBit amendedUnitBit
  by_cases h1 : (analyzeContentUnit u).pov = .first
  · simp [h1]
  by_cases h2 : (analyzeContentUnit u).pov = .third
  · simp [h1, h2]
  simp only [h1, h2, if_false]
  have hr : (analyzeContentUnit u).rhetorical = rhetoricalOf (matchSents u) u := rfl
  have hq : endingQuestion u = true ↔
      (0 < (matchSents u).length
        ∧ (jsTrim ((matchSents u).getLastD [])).getLast? = some 63) := by
    simp only [endingQuestion, Bool.and_eq_true, decide_eq_true_eq, beq_iff_eq]
  rw [hr]
  by_cases hc : (rhetoricalOf (matchSents u) u).contains 0 = true
  · rw [if_pos hc]
    rcases (contains_rhetoricalOf_zero _ _).mp hc with hQ | hM
    · rw [if_pos (by rw [hq.mpr hQ]; simp)]
    · rw [if_pos (by rw [hM]; simp)]
  · rw [if_neg hc, if_pos (contains_rhetoricalOf_one _ _ hc)]
    have hQ : ¬ (0 < (matchSents u).length
        ∧ (jsTrim ((matchSents u).getLastD [])).getLast? = some 63) :=
      fun hx => hc ((contains_rhetoricalOf_zero _ _).mpr (Or.inl hx))
    have hM : ¬ hasAlt metaphorAlts u = true :=
      fun hx => hc ((contains_rhetoricalOf_zero _ _).mpr (Or.inr hx))
    have hor : (endingQuestion u || hasAlt metaphorAlts u) = false := by
      have hqf : endingQuestion u = false := by
        cases hval : endingQuestion u
        · rfl
        · exact absurd (hq.mp hval) hQ
      have hmf : hasAlt metaphorAlts u = false := by
        cases hval : hasAlt metaphorAlts u
        · rfl
        · exact absurd hval hM
      rw [hqf, hmf]
      rfl
    rw [hor]
    simp

/-! ## Claim C7 -/

theorem povOf_first_iff (a b c : Nat) :
    povOf a b c = .first ↔ 0 < a ∧ 2 * (b + c) ≤ a := by
  unfold povOf
  dsimp only
  split_ifs with h1 h2 h3 <;> simp <;> omega

theorem povOf_second_iff (a b c : Nat) :
    povOf a b c = .second ↔ 0 < b ∧ 2 * (a + c) ≤ b := by
  unfold povOf
  dsimp only
  split_ifs with h1 h2 h3 <;> simp <;> omega

theorem povOf_third_iff (a b c : Nat) :
    povOf a b c = .third ↔ 0 < c ∧ 2 * (a + b) ≤ c := by
  unfold povOf
  dsimp only
  split_ifs with h1 h2 h3 <;> simp <;> omega

theorem tenseOf_past_iff (a b c : Nat) :
    tenseOf a b c = .past ↔ 0 < a ∧ 2 * (b + c) ≤ a := by
  unfold tenseOf
  dsimp only
  split_ifs with h1 h2 h3 <;> simp <;> omega

theorem tenseOf_present_iff (a b c : Nat) :
    tenseOf a b c = .present ↔ 0 < b ∧ 2 * (a + c) ≤ b := by
  unfold tenseOf
  dsimp only
  split_ifs with h1 h2 h3 <;> simp <;> omega

theorem tenseOf_future_iff (a b c : Nat) :
    tenseOf a b c = .future ↔ 0 < c ∧ 2 * (a + b) ≤ c := by
  unfold tenseOf
  dsimp only
  split_ifs with h1 h2 h3 <;> simp <;> omega

theorem dialecticOf_argumentative_iff (a b c : Nat) :
    dialecticOf a b c = .argumentative ↔ b + c < a := by
  unfold dialecticOf
  dsimp only
  split_ifs with h1 h2 h3 <;> simp <;> omega

theorem dialecticOf_descriptive_iff (a b c : Nat) :
    dialecticOf a b c = .descriptive ↔ a + c < b := by
  unfold dialecticOf
  dsimp only
  split_ifs with h1 h2 h3 <;> simp <;> omega

theorem dialecticOf_narrative_iff (a b c : Nat) :
    dialecticOf a b c = .narrative ↔ a + b < c := by
  unfold dialecticOf
  dsimp only
  split_ifs with h1 h2 h3 <;> simp <;> omega

/-- The C7 counterexample unit: three argumentative indicators (because,
thus, therefore) against two descriptive ones (seems, appears). -/
def c7unit : Str := cu "Because it seems hard, it appears that thus happens, therefore yes."

/-- Claim C7 counterexample: on the dialectic axis the dominant class's count
(3) is NOT at least double the combined count of the other classes (2·2 = 4),
so the claimed uniform dominance rule requires "mixed"; the analyzer
classifies the unit as argumentative, because the dialectic axis actually
uses a strict-majority test (`max > total / 2`). -/
theorem claim7_counterexample :
    countAlts argumentativeAlts c7unit = 3
      ∧ countAlts descriptiveAlts c7unit = 2
      ∧ countAlts narrativeAlts c7unit = 0
      ∧ ¬ 2 * (2 + 0) ≤ 3
      ∧ (analyzeContentUnit c7unit).dialectic = .argumentative := by
  refine ⟨by decide, by decide, by decide, by omega, by decide⟩

/-- Claim C7 (amended): the point-of-view and tense axes follow the claimed
dominance rule — a class is assigned exactly when its indicator count is
positive and at least double the combined count of the other two — but the
dialectic axis assigns a class exactly when its count exceeds the sum of the
other two (strict majority, `max > total / 2`), a strictly weaker bar. -/
theorem claim7_theorem (u : Str) :
    ((analyzeContentUnit u).pov = .first ↔
        0 < countAlts firstPersonAlts u
          ∧ 2 * (countAlts secondPersonAlts u + countAlts thirdPersonAlts u)
              ≤ countAlts firstPersonAlts u)
    ∧ ((analyzeContentUnit u).pov = .second ↔
        0 < countAlts secondPersonAlts u
          ∧ 2 * (countAlts firstPersonAlts u + countAlts thirdPersonAlts u)
              ≤ countAlts secondPersonAlts u)
    ∧ ((analyzeContentUnit u).pov = .third ↔
        0 < countAlts thirdPersonAlts u
          ∧ 2 * (countAlts firstPersonAlts u + countAlts secondPersonAlts u)
              ≤ countAlts thirdPersonAlts u)
    ∧ ((analyzeContentUnit u).tense = .past ↔
        0 < countAlts pastTenseAlts u
          ∧ 2 * (countAlts presentTenseAlts u + countAlts futureTenseAlts u)
              ≤ countAlts pastTenseAlts u)
    ∧ ((analyzeContentUnit u).tense = .present ↔
        0 < countAlts presentTenseAlts u
          ∧ 2 * (countAlts pastTenseAlts u + countAlts futureTenseAlts u)
              ≤ countAlts presentTenseAlts u)
    ∧ ((analyzeContentUnit u).tense = .future ↔
        0 < countAlts futureTenseAlts u
          ∧ 2 * (countAlts pastTenseAlts u + countAlts presentTenseAlts u)
              ≤ countAlts futureTenseAlts u)
    ∧ ((analyzeContentUnit u).dialectic = .argumentative ↔
        countAlts descriptiveAlts u + countAlts narrativeAlts u
          < countAlts argumentativeAlts u)
    ∧ ((analyzeContentUnit u).dialectic = .descriptive ↔
        countAlts argumentativeAlts u + countAlts narrativeAlts u
          < countAlts descriptiveAlts u)
    ∧ ((analyzeContentUnit u).dialectic = .narrative ↔
        countAlts argumentativeAlts u + countAlts descriptiveAlts u
          < countAlts narrativeAlts u) := by
  have hp : (analyzeContentUnit u).pov
      = povOf (countAlts firstPersonAlts u) (countAlts secondPersonAlts u)
          (countAlts thirdPersonAlts u) := rfl
  have ht : (analyzeContentUnit u).tense
      = tenseOf (countAlts pastTenseAlts u) (countAlts presentTenseAlts u)
          (countAlts futureTenseAlts u) := rfl
  have hd : (analyzeContentUnit u).dialectic
      = dialecticOf (countAlts argumentativeAlts u) (countAlts descriptiveAlts u)
          (countAlts narrativeAlts u) := rfl
  rw [hp, ht, hd]
  exact ⟨povOf_first_iff _ _ _, povOf_second_iff _ _ _, povOf_third_iff _ _ _,
    tenseOf_past_iff _ _ _, tenseOf_present_iff _ _ _, tenseOf_future_iff _ _ _,
    dialecticOf_argumentative_iff _ _ _, dialecticOf_descriptive_iff _ _ _,
    dialecticOf_narrative_iff _ _ _⟩

/-! ## Claim C9 -/

/-- The number of bit-consuming (eligible) sentences: those whose trimmed
form has at least 3 space-separated fields. -/
def countEligibleSents (sents : List Str) : Nat :=
  sents.countP (fun s => !styShort (jsTrim s))

theorem encodeStyGo_bitIndex (sents : List Str) :
    ∀ (bits : List Nat) (k : Nat) (acc : Str) (r : Rng), k ≤ bits.length →
      (encodeStyGo sents bits k acc r).2.1 = min bits.length (k + countEligibleSents sents) := by
  induction sents with
  | nil =>
    intro bits k acc r h
    simp only [encodeStyGo, countEligibleSents, List.countP_nil]
    omega
  | cons s rest ih =>
    intro bits k acc r h
    simp only [encodeStyGo]
    by_cases hk : bits.length ≤ k
    · rw [if_pos hk]
      simp only [countEligibleSents]
      omega
    · rw [if_neg hk]
      by_cases hs : styShort (jsTrim s) = true
      · rw [if_pos hs, ih bits k _ r (by omega)]
        simp only [countEligibleSents, List.countP_cons, hs]
        simp
      · rw [if_neg hs]
        rcases hmr : (if bits.getD k 48 = 48 then encodeBit0 (jsTrim s) r
            else encodeBit1 (jsTrim s) r) with ⟨m, r1⟩
        rw [ih bits (k + 1) _ _ (by omega)]
        simp only [countEligibleSents, List.countP_cons]
        have hb : (!styShort (jsTrim s)) = true := by simp [hs]
        rw [hb]
        split_ifs with hcond
        · omega
        · exact absurd rfl hcond

/-- The C9 counterexample text: two sentences, each a single word. -/
def c9text : Str := cu "a. a."

/-- The observable text of an encoder result (the random state stripped). -/
def encOut (e : Except EncError (Str × Rng)) : Option Str :=
  match e with
  | .ok p => some p.1
  | .error _ => none

/-- Claim C9 counterexample: the text has zero eligible sentences (every
sentence is shorter than 3 words) and two bits are requested, so the claim
requires an `InsufficientSentences` failure; the encoder succeeds — its
capacity check counts raw sentences, not eligible ones — and embeds nothing,
returning the text with its sentences duplicated by the tail loop. -/
theorem claim9_counterexample :
    countEligibleSents (matchSents c9text) = 0
      ∧ (matchSents c9text).length = 2
      ∧ encOut (encodeStylometricBits c9text [48, 49] zeroRng)
          = some (cu "a. a. a.  a.") := by
  refine ⟨by decide, by decide, by decide⟩

/-- Claim C9 (amended): `encodeStylometricBits` fails with
`InsufficientSentences` exactly when the raw sentence count — eligible or
not — is below the number of bits; when it proceeds, the number of bits
actually consumed is the minimum of the bit count and the number of eligible
sentences, so bits beyond the eligible capacity are silently dropped rather
than reported. -/
theorem claim9_theorem (text : Str) (bits : List Nat) (r : Rng) :
    (encodeStylometricBits text bits r = .error .insufficientSentences
        ↔ (matchSents text).length < bits.length)
    ∧ ((matchSents text).length < bits.length →
        ∀ e, encodeStylometricBits text bits r = .error e → e = .insufficientSentences)
    ∧ (¬ (matchSents text).length < bits.length →
        (encodeStyGo (matchSents text) bits 0 [] r).2.1
          = min bits.length (countEligibleSents (matchSents text))) := by
  refine ⟨?_, ?_, ?_⟩
  · unfold encodeStylometricBits
    dsimp only
    split_ifs with hlt
    · simp [hlt]
    · rcases hgo : encodeStyGo (matchSents text) bits 0 [] r with ⟨acc, bir⟩
      rcases bir with ⟨bi, r1⟩
      simp [hgo, hlt]
  · intro hlt e he
    unfold encodeStylometricBits at he
    dsimp only at he
    rw [if_pos hlt] at he
    injection he with h2
    exact h2.symm
  · intro hge
    simpa using encodeStyGo_bitIndex (matchSents text) bits 0 [] r (by omega)

/-! ## Claim C8 -/

theorem structBitsPhase_four (a b c d : Str) : structBitsPhase [a, b, c, d] = none := by
  have hp : patternLoop [a, b, c, d] [] =
      [if shortLongOk 0 ([a, b, c, d].map List.length) then 48 else 49] := by
    simp [patternLoop, patternLoopGo]
  unfold structBitsPhase
  rw [hp]
  simp [unitLoop]

/-- Claim C8: for a text containing the structural marker, the decode returns
no payload whenever segmentation yields fewer than 5 units (below 4 the
explicit unit-count gate fires; at exactly 4 the pass yields 5 bits, under
the 16-bit length prefix, so the decode still returns `none`), and with 5 or
more units it proceeds to the bit-extraction phase. -/
theorem claim8_theorem (text : Str) (hm : jsIncludes text structMarkerCU = true) :
    ((splitContentIntoUnits text).length < 5 → extractHiddenStructuralData text = none)
    ∧ (5 ≤ (splitContentIntoUnits text).length →
        extractHiddenStructuralData text = structBitsPhase (splitContentIntoUnits text)) := by
  constructor
  · intro h5
    unfold extractHiddenStructuralData
    rw [if_pos hm]
    dsimp only
    by_cases h4 : (splitContentIntoUnits text).length < 4
    · rw [if_pos h4]
    · rw [if_neg h4]
      rcases hu : splitContentIntoUnits text with - | ⟨a, - | ⟨b, - | ⟨c, - | ⟨d, - | ⟨e, tl⟩⟩⟩⟩⟩ <;>
        rw [hu] at h4 h5 <;> simp at h4 h5 ⊢
      · exact structBitsPhase_four a b c d
      · omega
  · intro h5
    unfold extractHiddenStructuralData
    rw [if_pos hm]
    dsimp only
    rw [if_neg (by omega)]

/-- A marker-bearing text that segments into two units. -/
def c8small : Str :=
  cu "The following explores multiple perspectives.\n\nSecond unit here you know.\n\nThird unit is bigger indeed.\n\nFourth and final unit of them all, quite long."

/-- Claim C8 witness: the concrete marker-bearing text segments into fewer
than 5 units and the structural decode returns no payload. -/
theorem claim8_witness :
    jsIncludes c8small structMarkerCU = true
      ∧ (splitContentIntoUnits c8small).length < 5
      ∧ extractHiddenStructuralData c8small = none :=
  ⟨by decide, by decide, (claim8_theorem c8small (by decide)).1 (by decide)⟩

/-! ## Invisible-channel helper lemmas -/

theorem idxOf_append_zwj3 (A B : Str) (hA : ZWJ ∉ A)
    (hB : (List.replicate 3 ZWJ).isPrefixOf B = true) :
    idxOf (A ++ B) (List.replicate 3 ZWJ) = some A.length := by
  induction A with
  | nil =>
    rw [List.nil_append]
    unfold idxOf
    rw [if_pos hB]
    rfl
  | cons c A ih =>
    have hc : (ZWJ == c) = false := by
      simp only [beq_eq_false_iff_ne, ne_eq]
      intro h
      exact hA (h ▸ List.mem_cons_self c A)
    have hA' : ZWJ ∉ A := fun h => hA (List.mem_cons_of_mem c h)
    have hpre : (List.replicate 3 ZWJ).isPrefixOf (c :: (A ++ B)) = false := by
      rw [show (List.replicate 3 ZWJ).isPrefixOf (c :: (A ++ B))
          = ((ZWJ == c) && (List.replicate 2 ZWJ).isPrefixOf (A ++ B)) from rfl]
      rw [hc, Bool.false_and]
    rw [List.cons_append]
    unfold idxOf
    rw [hpre]
    simp only [Bool.false_eq_true, if_false, ih hA', Option.map, List.length_cons]

theorem isPrefixOf_append_self (l m : Str) : l.isPrefixOf (l ++ m) = true := by
  rw [List.isPrefixOf_iff_prefix]
  exact List.prefix_append l m

theorem extractHiddenData_marked (t1 body t2 : Str) (h1 : ZWJ ∉ t1) (h2 : ZWJ ∉ body) :
    extractHiddenData
        (t1 ++ (List.replicate 3 ZWJ ++ (body ++ (List.replicate 3 ZWJ ++ t2))))
      = some (invContentDecode body) := by
  unfold extractHiddenData
  dsimp only
  have e1 : idxOf (t1 ++ (List.replicate 3 ZWJ ++ (body ++ (List.replicate 3 ZWJ ++ t2))))
      (List.replicate 3 ZWJ) = some t1.length :=
    idxOf_append_zwj3 t1 _ h1 (isPrefixOf_append_self _ _)
  rw [e1]
  dsimp only
  have e2 : (t1 ++ (List.replicate 3 ZWJ ++ (body ++ (List.replicate 3 ZWJ ++ t2)))).drop
      (t1.length + 3) = body ++ (List.replicate 3 ZWJ ++ t2) := by
    rw [← List.append_assoc]
    have h3 : t1.length + 3 = (t1 ++ List.replicate 3 ZWJ).length := by
      simp
    rw [h3, List.drop_left]
  rw [e2]
  have e3 : idxOf (body ++ (List.replicate 3 ZWJ ++ t2)) (List.replicate 3 ZWJ)
      = some body.length :=
    idxOf_append_zwj3 body _ h2 (isPrefixOf_append_self _ _)
  rw [e3]
  dsimp only
  rw [List.take_left]

theorem jsSlice2_zero_take (s : Str) (a : Int) :
    jsSlice2 s 0 a = s.take (jsIdx s.length a) := by
  unfold jsSlice2
  have h0 : jsIdx s.length 0 = 0 := by
    unfold jsIdx
    simp
  rw [h0, List.drop_zero, Nat.sub_zero]

theorem hideDataInText_shape (t p : Str) :
    hideDataInText t p =
      t.take (jsIdx t.length (invPosition t))
        ++ (List.replicate 3 ZWJ
          ++ (((padStartCU 16 48 (toBinDigits (p.flatMap charToBin).length)).map bitToZW
                ++ (p.flatMap charToBin).map bitToZW)
            ++ (List.replicate 3 ZWJ ++ t.drop (jsIdx t.length (invPosition t))))) := by
  unfold hideDataInText
  dsimp only
  rw [jsSlice2_zero_take]
  unfold jsSlice1
  simp [List.append_assoc]

theorem zwj_not_mem_map_bitToZW (s : Str) : ZWJ ∉ s.map bitToZW := by
  intro h
  rcases List.mem_map.mp h with ⟨x, -, hx⟩
  unfold bitToZW at hx
  split_ifs at hx <;> simp [ZWSP, ZWNJ, ZWJ] at hx

/-! ## Claim C2 -/

/-- The encoded interior of the C2 counterexample: a 16-bit length prefix
declaring 8 data bits, followed by only 4 data characters. -/
def c2truncEnc : Str := (cu "0000000000001000").map bitToZW ++ (cu "0110").map bitToZW

/-- The C2 counterexample text: a marker-framed block whose declared length
exceeds the available bits. -/
def c2trunc : Str := List.replicate 3 ZWJ ++ c2truncEnc ++ List.replicate 3 ZWJ

/-- Claim C2 counterexample: the invisible-channel decode does not check the
16-bit length prefix against the available bits — on a block declaring 8
data bits but holding 4, it returns the garbled single character 6 (the 4
bits `0110` parsed as a short byte) instead of failing. -/
theorem claim2_counterexample :
    parseBinOpt ((jsSlice2 c2truncEnc 0 16).map zwToBit) = some 8
      ∧ c2truncEnc.length = 16 + 4
      ∧ extractHiddenData c2trunc = some [6] := by
  refine ⟨by decide, by decide, by decide⟩

/-- Claim C2 (amended): the stylometric and structural decodes detect a
declared length exceeding the available bits and return no payload, but the
invisible-channel decode does not: whenever both markers are present it
returns a (possibly truncated and garbled) byte string, never `none`. -/
theorem claim2_theorem :
    (∀ text bits, extractStylometricBits text = some bits →
        bits.length < 16 + parseBin (jsSubstring bits 0 16) →
        extractHiddenStylometricData text = none)
    ∧ (∀ units : List Str,
        (unitLoop units (patternLoop units [])).length <
            16 + parseBin (jsSubstring (unitLoop units (patternLoop units [])) 0 16) →
        structBitsPhase units = none)
    ∧ (∀ t1 body t2 : Str, ZWJ ∉ t1 → ZWJ ∉ body →
        extractHiddenData
            (t1 ++ (List.replicate 3 ZWJ ++ (body ++ (List.replicate 3 ZWJ ++ t2))))
          = some (invContentDecode body)) := by
  refine ⟨?_, ?_, ?_⟩
  · intro text bits h hlt
    unfold extractHiddenStylometricData
    rw [h]
    dsimp only
    split_ifs with h16 hck
    all_goals first | rfl | omega
  · intro units hlt
    unfold structBitsPhase
    dsimp only
    split_ifs with h16 hck
    all_goals first | rfl | omega
  · intro t1 body t2 h1 h2
    exact extractHiddenData_marked t1 body t2 h1 h2

/-- The C2 witness text: a stylometric document whose 17 readable bits
declare 32768 data bits. -/
def c2sty : Str :=
  styMarkerTextCU ++ cu "A b. C d. He is ok! " ++ (List.replicate 16 (cu "He is aa. ")).flatten

/-- The bit string the stylometric decoder reads from `c2sty`. -/
def c2styBits : List Nat := 49 :: List.replicate 16 48

/-- Claim C2 witness: the stylometric decode of the concrete document reads
17 bits whose prefix declares 32768, and returns no payload. -/
theorem claim2_witness :
    extractStylometricBits c2sty = some c2styBits
      ∧ c2styBits.length < 16 + parseBin (jsSubstring c2styBits 0 16)
      ∧ extractHiddenStylometricData c2sty = none :=
  ⟨by decide, by decide, claim2_theorem.1 c2sty c2styBits (by decide) (by decide)⟩

/-! ## Binary-digit helper lemmas -/

/-- The value of a binary digit string (the fold `parseInt(s, 2)` performs). -/
def valBin (s : Str) : Nat := s.foldl (fun a c => 2 * a + (c - 48)) 0

theorem foldl_bin_shift (s : Str) :
    ∀ a : Nat, s.foldl (fun a c => 2 * a + (c - 48)) a = a * 2 ^ s.length + valBin s := by
  induction s with
  | nil => intro a; simp [valBin]
  | cons c cs ih =>
    intro a
    have h1 : valBin (c :: cs) = (c - 48) * 2 ^ cs.length + valBin cs := by
      show List.foldl (fun a c => 2 * a + (c - 48)) 0 (c :: cs) = _
      rw [List.foldl_cons, ih (2 * 0 + (c - 48))]
      norm_num
    rw [List.foldl_cons, ih (2 * a + (c - 48)), h1, List.length_cons]
    ring

theorem valBin_append (xs ys : Str) :
    valBin (xs ++ ys) = valBin xs * 2 ^ ys.length + valBin ys := by
  unfold valBin
  rw [List.foldl_append]
  exact foldl_bin_shift ys _

theorem valBin_replicate_zero (m : Nat) : valBin (List.replicate m 48) = 0 := by
  induction m with
  | zero => rfl
  | succ k ih =>
    rw [List.replicate_succ]
    unfold valBin at ih ⊢
    simpa using ih

theorem valBin_padStart (k : Nat) (s : Str) :
    valBin (padStartCU k 48 s) = valBin s := by
  unfold padStartCU
  rw [valBin_append, valBin_replicate_zero]
  ring

theorem padStartCU_length (k pad : Nat) (s : Str) :
    (padStartCU k pad s).length = max k s.length := by
  simp [padStartCU]
  omega

theorem padStartCU_digits (k : Nat) (s : Str) (h : ∀ c ∈ s, c = 48 ∨ c = 49) :
    ∀ c ∈ padStartCU k 48 s, c = 48 ∨ c = 49 := by
  intro c hc
  rcases List.mem_append.mp hc with hm | hm
  · exact Or.inl (List.eq_of_mem_replicate hm)
  · exact h c hm

theorem toBinGo_spec : ∀ fuel n, n < fuel →
    valBin (toBinGo fuel n) = n
      ∧ (∀ c ∈ toBinGo fuel n, c = 48 ∨ c = 49)
      ∧ toBinGo fuel n ≠ [] := by
  intro fuel
  induction fuel with
  | zero => intro n h; omega
  | succ f ih =>
    intro n h
    unfold toBinGo
    by_cases h2 : n < 2
    · rw [if_pos h2]
      refine ⟨?_, ?_, by simp⟩
      · unfold valBin
        simp
      · intro c hc
        simp only [List.mem_singleton] at hc
        omega
    · rw [if_neg h2]
      have hd : n / 2 < f := by omega
      obtain ⟨ihv, ihd, -⟩ := ih (n / 2) hd
      refine ⟨?_, ?_, by simp⟩
      · rw [valBin_append, ihv]
        have : valBin [48 + n % 2] = n % 2 := by
          unfold valBin
          simp
        rw [this]
        simp only [List.length_singleton, pow_one]
        omega
      · intro c hc
        rcases List.mem_append.mp hc with hm | hm
        · exact ihd c hm
        · simp only [List.mem_singleton] at hm
          omega

theorem toBinDigits_val (n : Nat) : valBin (toBinDigits n) = n :=
  (toBinGo_spec (n + 1) n (by omega)).1

theorem toBinDigits_mem (n : Nat) : ∀ c ∈ toBinDigits n, c = 48 ∨ c = 49 :=
  (toBinGo_spec (n + 1) n (by omega)).2.1

theorem toBinDigits_ne_nil (n : Nat) : toBinDigits n ≠ [] :=
  (toBinGo_spec (n + 1) n (by omega)).2.2

theorem toBinGo_length_le : ∀ fuel n k, n < fuel → n < 2 ^ k → 0 < k →
    (toBinGo fuel n).length ≤ k := by
  intro fuel
  induction fuel with
  | zero => intro n k h; omega
  | succ f ih =>
    intro n k h hk h0
    unfold toBinGo
    by_cases h2 : n < 2
    · rw [if_pos h2]
      simpa using h0
    · rw [if_neg h2]
      rw [List.length_append, List.length_singleton]
      have hk1 : 1 < k := by
        by_contra hc
        have hkk : k = 1 := by omega
        subst hkk
        norm_num at hk
        omega
      have hd : n / 2 < 2 ^ (k - 1) := by
        have : 2 ^ k = 2 ^ (k - 1) * 2 := by
          rw [← pow_succ]
          congr 1
          omega
        omega
      have := ih (n / 2) (k - 1) (by omega) hd (by omega)
      omega

theorem toBinGo_length_gt : ∀ fuel n k, n < fuel → 2 ^ k ≤ n →
    k < (toBinGo fuel n).length := by
  intro fuel
  induction fuel with
  | zero => intro n k h; omega
  | succ f ih =>
    intro n k h hk
    unfold toBinGo
    by_cases h2 : n < 2
    · rw [if_pos h2]
      have : k = 0 := by
        by_contra hc
        have : 2 ≤ 2 ^ k := by
          calc 2 = 2 ^ 1 := by norm_num
          _ ≤ 2 ^ k := Nat.pow_le_pow_right (by omega) (by omega)
        omega
      simp [this]
    · rw [if_neg h2]
      rw [List.length_append, List.length_singleton]
      rcases Nat.eq_zero_or_pos k with hk0 | hk1
      · have : 0 < (toBinGo f (n / 2)).length + 1 := by omega
        omega
      · have hd : 2 ^ (k - 1) ≤ n / 2 := by
          have h2k : 2 ^ k = 2 ^ (k - 1) * 2 := by
            rw [← pow_succ]
            congr 1
            omega
          omega
        have := ih (n / 2) (k - 1) (by omega) hd
        omega

theorem takeWhile_digits_self (s : Str) (h : ∀ c ∈ s, c = 48 ∨ c = 49) :
    s.takeWhile (fun c => c = 48 || c = 49) = s := by
  induction s with
  | nil => rfl
  | cons c cs ih =>
    rw [List.takeWhile_cons]
    have hc : (decide (c = 48) || decide (c = 49)) = true := by
      rcases h c (List.mem_cons_self c cs) with h1 | h1 <;> simp [h1]
    simpa [hc] using ih (fun x hx => h x (List.mem_cons_of_mem c hx))

theorem parseBinOpt_digits (s : Str) (h : ∀ c ∈ s, c = 48 ∨ c = 49) (hne : s ≠ []) :
    parseBinOpt s = some (valBin s) := by
  unfold parseBinOpt
  rw [takeWhile_digits_self s h]
  cases s with
  | nil => exact absurd rfl hne
  | cons c cs => rfl

theorem parseBin_digits (s : Str) (h : ∀ c ∈ s, c = 48 ∨ c = 49) (hne : s ≠ []) :
    parseBin s = valBin s := by
  unfold parseBin
  rw [parseBinOpt_digits s h hne]
  rfl

/-! ## Byte-regrouping helper lemmas -/

theorem charToBin_length (c : Nat) (h : c < 256) : (charToBin c).length = 8 := by
  unfold charToBin
  rw [padStartCU_length]
  have := toBinGo_length_le (c + 1) c 8 (by omega) (by norm_num; omega) (by omega)
  unfold toBinDigits
  omega

theorem charToBin_digits (c : Nat) : ∀ d ∈ charToBin c, d = 48 ∨ d = 49 :=
  padStartCU_digits 8 _ (toBinDigits_mem c)

theorem charToBin_val (c : Nat) : valBin (charToBin c) = c := by
  unfold charToBin
  rw [valBin_padStart, toBinDigits_val]

theorem parseBin_charToBin (c : Nat) : parseBin (charToBin c) = c := by
  rw [parseBin_digits _ (charToBin_digits c), charToBin_val]
  unfold charToBin padStartCU
  intro hx
  exact toBinDigits_ne_nil c (List.append_eq_nil.mp hx).2

theorem flatMap_charToBin_length (p : List Nat) (hb : ∀ b ∈ p, b < 256) :
    (p.flatMap charToBin).length = 8 * p.length := by
  induction p with
  | nil => simp
  | cons b q ih =>
    rw [List.flatMap_cons, List.length_append,
      charToBin_length b (hb b (List.mem_cons_self b q)),
      ih (fun x hx => hb x (List.mem_cons_of_mem b hx)), List.length_cons]
    ring

theorem flatMap_charToBin_digits (p : List Nat) :
    ∀ d ∈ p.flatMap charToBin, d = 48 ∨ d = 49 := by
  intro d hd
  rcases List.mem_flatMap.mp hd with ⟨b, -, hdb⟩
  exact charToBin_digits b d hdb

theorem chunk8Go_flatMap (p : List Nat) :
    ∀ fuel, (∀ b ∈ p, (charToBin b).length = 8) →
      (p.flatMap charToBin).length ≤ fuel →
      chunk8Go fuel (p.flatMap charToBin) = p.map charToBin := by
  induction p with
  | nil =>
    intro fuel h hf
    cases fuel <;> simp [chunk8Go]
  | cons b q ih =>
    intro fuel h hf
    have hb8 : (charToBin b).length = 8 := h b (List.mem_cons_self b q)
    have hnb : charToBin b ≠ [] := by
      intro hx
      rw [hx] at hb8
      simp at hb8
    rw [List.flatMap_cons] at hf ⊢
    rw [List.length_append, hb8] at hf
    cases fuel with
    | zero => omega
    | succ f =>
      unfold chunk8Go
      have hemp : (charToBin b ++ q.flatMap charToBin).isEmpty = false := by
        cases hcb : charToBin b with
        | nil => exact absurd hcb hnb
        | cons x xs => simp
      rw [hemp]
      simp only [Bool.false_eq_true, if_false]
      rw [List.take_left' hb8, List.drop_left' hb8]
      rw [ih f (fun x hx => h x (List.mem_cons_of_mem b hx)) (by omega)]
      rfl

theorem bytesKeep_flatMap (p : List Nat) (hb : ∀ b ∈ p, b < 256) :
    bytesKeep (p.flatMap charToBin) = p := by
  unfold bytesKeep chunk8
  rw [chunk8Go_flatMap p _ (fun b h => charToBin_length b (hb b h)) (by omega)]
  rw [List.map_map]
  have : ∀ q : List Nat, (∀ b ∈ q, b < 256) → q.map (parseBin ∘ charToBin) = q := by
    intro q
    induction q with
    | nil => intro hq; rfl
    | cons x xs ihq =>
      intro hq
      rw [List.map_cons, ihq (fun y hy => hq y (List.mem_cons_of_mem x hy))]
      simp [Function.comp, parseBin_charToBin]
  exact this p hb

theorem map_zwToBit_bitToZW (s : Str) (h : ∀ c ∈ s, c = 48 ∨ c = 49) :
    (s.map bitToZW).map zwToBit = s := by
  rw [List.map_map]
  induction s with
  | nil => rfl
  | cons c cs ih =>
    rw [List.map_cons, ih (fun x hx => h x (List.mem_cons_of_mem c hx))]
    rcases h c (List.mem_cons_self c cs) with hc | hc <;>
      subst hc <;> simp [Function.comp, bitToZW, zwToBit, ZWSP, ZWNJ]

/-! ## Claim C1 -/

theorem invContentDecode_encoded (p : List Nat) (hb : ∀ b ∈ p, b < 256)
    (hp : 8 * p.length ≤ 65535) :
    invContentDecode
        ((padStartCU 16 48 (toBinDigits (p.flatMap charToBin).length)).map bitToZW
          ++ (p.flatMap charToBin).map bitToZW) = p := by
  have hdl : (p.flatMap charToBin).length = 8 * p.length := flatMap_charToBin_length p hb
  have hLpre : (padStartCU 16 48 (toBinDigits (p.flatMap charToBin).length)).length = 16 := by
    rw [padStartCU_length]
    have : (toBinDigits (p.flatMap charToBin).length).length ≤ 16 := by
      unfold toBinDigits
      exact toBinGo_length_le _ _ 16 (by omega) (by rw [hdl]; norm_num; omega) (by omega)
    omega
  have hLzw : ((padStartCU 16 48 (toBinDigits (p.flatMap charToBin).length)).map bitToZW).length
      = 16 := by
    rw [List.length_map, hLpre]
  have htotal :
      ((padStartCU 16 48 (toBinDigits (p.flatMap charToBin).length)).map bitToZW
        ++ (p.flatMap charToBin).map bitToZW).length = 16 + 8 * p.length := by
    rw [List.length_append, hLzw, List.length_map, hdl]
  unfold invContentDecode
  dsimp only
  have hslice1 :
      jsSlice2 ((padStartCU 16 48 (toBinDigits (p.flatMap charToBin).length)).map bitToZW
          ++ (p.flatMap charToBin).map bitToZW) 0 16
        = (padStartCU 16 48 (toBinDigits (p.flatMap charToBin).length)).map bitToZW := by
    rw [jsSlice2_zero_take]
    have hidx : jsIdx ((padStartCU 16 48 (toBinDigits (p.flatMap charToBin).length)).map bitToZW
        ++ (p.flatMap charToBin).map bitToZW).length 16 = 16 := by
      unfold jsIdx
      rw [htotal]
      split_ifs <;> omega
    rw [hidx, List.take_left' hLzw]
  rw [hslice1]
  rw [map_zwToBit_bitToZW _ (padStartCU_digits 16 _ (toBinDigits_mem _))]
  rw [parseBinOpt_digits _ (padStartCU_digits 16 _ (toBinDigits_mem _))
    (by intro hx; rw [hx] at hLpre; simp at hLpre)]
  rw [valBin_padStart, toBinDigits_val]
  have hslice2 :
      jsSlice2 ((padStartCU 16 48 (toBinDigits (p.flatMap charToBin).length)).map bitToZW
          ++ (p.flatMap charToBin).map bitToZW) 16 (16 + ((p.flatMap charToBin).length : Int))
        = (p.flatMap charToBin).map bitToZW := by
    unfold jsSlice2
    have hidx16 : jsIdx ((padStartCU 16 48 (toBinDigits (p.flatMap charToBin).length)).map bitToZW
        ++ (p.flatMap charToBin).map bitToZW).length 16 = 16 := by
      unfold jsIdx
      rw [htotal]
      split_ifs <;> omega
    have hidxEnd : jsIdx ((padStartCU 16 48 (toBinDigits (p.flatMap charToBin).length)).map bitToZW
        ++ (p.flatMap charToBin).map bitToZW).length (16 + ((p.flatMap charToBin).length : Int))
        = 16 + 8 * p.length := by
      unfold jsIdx
      rw [htotal]
      split_ifs <;> omega
    rw [hidx16, hidxEnd]
    rw [List.drop_left' hLzw]
    have hrest : 16 + 8 * p.length - 16 = ((p.flatMap charToBin).map bitToZW).length := by
      rw [List.length_map, hdl]
      omega
    rw [hrest, List.take_length]
  dsimp only
  rw [hslice2]
  rw [map_zwToBit_bitToZW _ (flatMap_charToBin_digits p)]
  exact bytesKeep_flatMap p hb

/-- Claim C1 (amended): the invisible channel round-trips every byte payload
of at most 8191 bytes (so the 16-bit length prefix is not overrun) through
every carrier text that contains no U+200D; the byte and character-count
minimums of the original claim are not needed, but a carrier containing
U+200D can collide with the ZWJ-triple markers, and a payload of exactly
8192 bytes overflows the 16-bit prefix. -/
theorem claim1_theorem (p : List Nat) (hb : ∀ b ∈ p, b < 256)
    (hp : 8 * p.length ≤ 65535) (t : Str) (ht : ZWJ ∉ t) :
    extractHiddenData (hideDataInText t p) = some p := by
  rw [hideDataInText_shape]
  rw [extractHiddenData_marked _ _ _
    (fun hm => ht (List.take_subset _ t hm))
    (by
      intro hm
      rcases List.mem_append.mp hm with h1 | h1
      · exact zwj_not_mem_map_bitToZW _ h1
      · exact zwj_not_mem_map_bitToZW _ h1)]
  rw [invContentDecode_encoded p hb hp]

/-- Claim C1 witness: the 2-byte payload `hi` round-trips through a concrete
200-character text. -/
theorem claim1_witness :
    (∀ b ∈ cu "hi", b < 256)
      ∧ 8 * (cu "hi").length ≤ 65535
      ∧ (List.replicate 200 97).length = 200
      ∧ ZWJ ∉ List.replicate 200 97
      ∧ extractHiddenData (hideDataInText (List.replicate 200 97) (cu "hi"))
          = some (cu "hi") :=
  ⟨by decide, by decide, by decide, by decide,
    claim1_theorem (cu "hi") (by decide) (by decide) (List.replicate 200 97) (by decide)⟩

/-- Claim C1 counterexample: a 200-character text made of U+200D characters
meets the claim's only stated requirement on the carrier (at least 200
characters), yet the decode of the encode of `hi` returns the empty string:
the text's own ZWJ characters are found as the start and end markers. -/
theorem claim1_counterexample :
    (List.replicate 200 ZWJ).length = 200
      ∧ extractHiddenData (hideDataInText (List.replicate 200 ZWJ) (cu "hi")) = some []
      ∧ some ([] : Str) ≠ some (cu "hi") := by
  refine ⟨by decide, by decide, by decide⟩

/-! ## Claim C3 -/

theorem hideDataInText_length (t p : Str) :
    (hideDataInText t p).length =
      t.length + 6 + (padStartCU 16 48 (toBinDigits (p.flatMap charToBin).length)).length
        + (p.flatMap charToBin).length := by
  rw [hideDataInText_shape]
  simp only [List.length_append, List.length_map, List.length_take, List.length_drop,
    List.length_replicate]
  omega

/-- Claim C3 (amended): the invisible-channel encoder performs no payload-size
validation and has no failure path; on a payload whose bit length exceeds
65535 it returns a normally assembled output whose length prefix is longer
than 16 characters (the full binary expansion of the bit count), rather than
failing with `PayloadTooLarge`. -/
theorem claim3_theorem (t p : Str) (hb : ∀ b ∈ p, b < 256)
    (hbig : 65535 < 8 * p.length) :
    (hideDataInText t p).length
        = t.length + 6 + (toBinDigits (8 * p.length)).length + 8 * p.length
      ∧ 16 < (toBinDigits (8 * p.length)).length := by
  have hdl := flatMap_charToBin_length p hb
  have hgt : 16 < (toBinDigits (8 * p.length)).length := by
    unfold toBinDigits
    exact toBinGo_length_gt _ _ 16 (by omega) (by norm_num; omega)
  refine ⟨?_, hgt⟩
  rw [hideDataInText_length, hdl, padStartCU_length]
  omega

/-- Claim C3 witness: a payload of 8192 bytes (65536 bits) is past the prefix
cap yet encodes to a normally assembled output, its length prefix 17
characters long. -/
theorem claim3_witness :
    65535 < 8 * (List.replicate 8192 97 : List Nat).length
      ∧ (hideDataInText (List.replicate 200 97) (List.replicate 8192 97)).length
          = 200 + 6 + (toBinDigits (8 * 8192)).length + 8 * 8192
      ∧ 16 < (toBinDigits (8 * 8192)).length := by
  have hb : ∀ b ∈ (List.replicate 8192 97 : List Nat), b < 256 := by
    intro b hbm
    rw [List.eq_of_mem_replicate hbm]
    norm_num
  have hbig : 65535 < 8 * (List.replicate 8192 97 : List Nat).length := by
    rw [List.length_replicate]
    norm_num
  obtain ⟨hlen, hgt⟩ := claim3_theorem (List.replicate 200 97) (List.replicate 8192 97) hb hbig
  refine ⟨hbig, ?_, ?_⟩
  · rw [hlen]
    simp only [List.length_replicate]
  · simp only [List.length_replicate] at hgt
    exact hgt

/-- Claim C3 counterexample: the concrete oversized encode emits a 17-bit
length prefix — its output is exactly 200 + 6 + 17 + 65536 characters — so
no `PayloadTooLarge` failure occurs where the claim requires one. -/
theorem claim3_counterexample :
    (toBinDigits (8 * 8192)).length = 17
      ∧ (hideDataInText (List.replicate 200 97) (List.replicate 8192 97)).length
          = 200 + 6 + 17 + 65536 := by
  have hb : ∀ b ∈ (List.replicate 8192 97 : List Nat), b < 256 := by
    intro b hbm
    rw [List.eq_of_mem_replicate hbm]
    norm_num
  have h17 : (toBinDigits (8 * 8192)).length = 17 := by
    have hle : (toBinDigits (8 * 8192)).length ≤ 17 := by
      unfold toBinDigits
      exact toBinGo_length_le _ _ 17 (by omega) (by norm_num) (by omega)
    have hgt : 16 < (toBinDigits (8 * 8192)).length := by
      unfold toBinDigits
      exact toBinGo_length_gt _ _ 16 (by omega) (by norm_num)
    omega
  refine ⟨h17, ?_⟩
  have hdl := flatMap_charToBin_length _ hb
  rw [hideDataInText_length, hdl, padStartCU_length]
  simp only [List.length_replicate]
  omega

/-! ## Claim C10 -/

theorem bitToZW_cases (c : Nat) : bitToZW c = ZWSP ∨ bitToZW c = ZWNJ := by
  unfold bitToZW
  split_ifs <;> simp

/-- Claim C10: on a carrier with no zero-width characters, the invisible
encode inserts one contiguous nonempty block consisting only of U+200B,
U+200C and U+200D at a single position of the unchanged text, so deleting
all three zero-width characters from the output restores the carrier
exactly. -/
theorem claim10_theorem (t d : Str) (h1 : ZWSP ∉ t) (h2 : ZWNJ ∉ t) (h3 : ZWJ ∉ t) :
    (∃ n zw, zw ≠ []
        ∧ (∀ c ∈ zw, c = ZWSP ∨ c = ZWNJ ∨ c = ZWJ)
        ∧ hideDataInText t d = t.take n ++ (zw ++ t.drop n))
      ∧ stripZW (hideDataInText t d) = t := by
  have hshape := hideDataInText_shape t d
  set n := jsIdx t.length (invPosition t) with hn
  set zw := List.replicate 3 ZWJ
      ++ (((padStartCU 16 48 (toBinDigits (d.flatMap charToBin).length)).map bitToZW
            ++ (d.flatMap charToBin).map bitToZW)
        ++ List.replicate 3 ZWJ) with hzw
  have hshape2 : hideDataInText t d = t.take n ++ (zw ++ t.drop n) := by
    rw [hshape, hzw]
    simp [List.append_assoc]
  have hzwmem : ∀ c ∈ zw, c = ZWSP ∨ c = ZWNJ ∨ c = ZWJ := by
    intro c hc
    rw [hzw] at hc
    rcases List.mem_append.mp hc with hm | hm
    · exact Or.inr (Or.inr (List.eq_of_mem_replicate hm))
    · rcases List.mem_append.mp hm with hm2 | hm2
      · rcases List.mem_append.mp hm2 with hm3 | hm3 <;>
        · rcases List.mem_map.mp hm3 with ⟨x, -, hx⟩
          rcases bitToZW_cases x with hbz | hbz <;> rw [← hx, hbz] <;> simp
      · exact Or.inr (Or.inr (List.eq_of_mem_replicate hm2))
  have hzwne : zw ≠ [] := by
    rw [hzw]
    simp
  refine ⟨⟨n, zw, hzwne, hzwmem, hshape2⟩, ?_⟩
  rw [hshape2]
  unfold stripZW
  rw [List.filter_append, List.filter_append]
  have hkeep : ∀ s : Str, (∀ c ∈ s, c ∈ t) →
      s.filter (fun c => !(c = ZWSP || c = ZWNJ || c = ZWJ)) = s := by
    intro s hs
    apply List.filter_eq_self.mpr
    intro c hc
    have hct := hs c hc
    simp only [Bool.not_eq_eq_eq_not, Bool.not_true, Bool.or_eq_false_iff,
      decide_eq_false_iff_not]
    exact ⟨⟨fun hx => h1 (hx ▸ hct), fun hx => h2 (hx ▸ hct)⟩, fun hx => h3 (hx ▸ hct)⟩
  have hdropzw : zw.filter (fun c => !(c = ZWSP || c = ZWNJ || c = ZWJ)) = [] := by
    apply List.filter_eq_nil_iff.mpr
    intro c hc
    rcases hzwmem c hc with hx | hx | hx <;> simp [hx]
  rw [hkeep _ (fun c hc => List.take_subset n t hc),
    hdropzw,
    hkeep _ (fun c hc => List.drop_subset n t hc)]
  simp only [List.nil_append]
  exact List.take_append_drop n t

/-- Claim C10 witness: on a concrete zero-width-free carrier and payload,
stripping all zero-width characters from the encode output restores the
carrier. -/
theorem claim10_witness :
    ZWSP ∉ cu "A small carrier text, long enough to be split."
      ∧ stripZW (hideDataInText (cu "A small carrier text, long enough to be split.") (cu "A"))
          = cu "A small carrier text, long enough to be split." :=
  ⟨by decide,
    (claim10_theorem (cu "A small carrier text, long enough to be split.") (cu "A")
      (by decide) (by decide) (by decide)).2⟩

/-! ## Claim C5 -/

/-- The first paragraph of the C5 document: a long opening paragraph whose
second sentence contains the word `very`. -/
def p0 : Str := cu "A b c. I very x y." ++ (List.replicate 15 (cu " He is aa.")).flatten

/-- The second paragraph of the C5 document: thirty short sentences. -/
def p1 : Str := List.intercalate [32] (List.replicate 30 (cu "a."))

/-- The C5 document content: long enough for the orchestrator to run the
structural, stylometric and invisible layers in sequence. -/
def c5content : Str := p0 ++ cu "\n\n" ++ p1 ++ cu "\n\n" ++ cu "a."

set_option maxHeartbeats 4000000 in
/-- Claim C5 counterexample: on this redundant-mode document produced with all
channels enabled, the stylometric extraction succeeds before stripping (it
returns the empty payload) but fails after every zero-width character is
deleted: the invisible layer inserted its zero-width block inside the word
`very`, and removing it re-creates the adverb ` very `, changing the
stylometric bit stream that the decoder reads. -/
theorem claim5_counterexample :
    (encodeEnhancedCore c5content (cu "J") zeroRng).map extractHiddenStylometricData
        = some (some [])
      ∧ (encodeEnhancedCore c5content (cu "J") zeroRng).map
          (fun d => extractHiddenStylometricData (stripZW d)) = some none := by
  decide

/-- Claim C5 (amended): the stylometric and structural extractions are
invariant under any rewriting of the document — stripping of zero-width
characters included — that preserves the marker presences, the stylometric
bit stream read from the sentences after the marker, and the structural
content-unit segmentation; stripping a real encoded document is not such a
rewriting in general, because deleting a zero-width block can merge word
fragments into an indicator word (see the counterexample). -/
theorem claim5_theorem (t u : Str)
    (hsm : jsIncludes t styMarkerCU = jsIncludes u styMarkerCU)
    (hsb : styLoop ((matchSents t).drop 2) [] = styLoop ((matchSents u).drop 2) [])
    (hgm : jsIncludes t structMarkerCU = jsIncludes u structMarkerCU)
    (hgu : splitContentIntoUnits t = splitContentIntoUnits u) :
    extractHiddenStylometricData t = extractHiddenStylometricData u
      ∧ extractHiddenStructuralData t = extractHiddenStructuralData u := by
  constructor
  · unfold extractHiddenStylometricData extractStylometricBits
    rw [hsm, hsb]
  · unfold extractHiddenStructuralData
    rw [hgm, hgu]

/-- Claim C5 witness: two concrete documents with equal marker presences,
stylometric bit streams and unit segmentations have equal extractions. -/
theorem claim5_witness :
    extractHiddenStylometricData (cu "a") = extractHiddenStylometricData (cu "b")
      ∧ extractHiddenStructuralData (cu "a") = extractHiddenStructuralData (cu "b") :=
  claim5_theorem (cu "a") (cu "b") (by decide) (by decide) (by decide) (by decide)

end Stylometrics
